import Mathlib

/-!
Verification of the pipeline execution engine and hybrid knowledge-retrieval
scorer of the workflow-engine repository.

The definitions below are a shallow embedding of the TypeScript agent
service: the pipeline scheduler (`buildExecutionOrder`), the template
interpolator (`interpolatePrompt` / `resolveTemplateToken`), the lexical and
semantic retrieval scorer (`calculateLexicalScore`, `cosineSimilarity`,
`scoreKnowledgeEntry`, `rankKnowledgeEntries`) and the pipeline executor
(`executePipeline`).  JavaScript numbers are modelled as real numbers (their
IEEE-754 rounding is out of scope); the textual rendering of a number is
abstracted as an explicit `fmt : Real -> String` parameter wherever the code
stringifies one.  JavaScript maps keyed by strings are modelled as total
functions `String -> Option _`, `undefined` being `none`.
-/

namespace Workflow

/-- An edge of a pipeline definition.  The TypeScript fields are named
`from`/`to`; `from` is a Lean keyword, so the fields are `fromId`/`toId`. -/
structure PipelineEdge where
  fromId : String
  toId : String
deriving DecidableEq, Repr

/-- The node `config` object, restricted to the fields the engine reads.
Absent fields are `none`.  `top_k`/`topK` are modelled as naturals (the
engine only ever uses them as a slice bound). -/
structure NodeConfig where
  prompt : Option String := none
  model : Option String := none
  temperature : Option Real := none
  source : Option String := none
  top_k : Option Nat := none
  topK : Option Nat := none
  toolName : Option String := none

/-- A pipeline node: `id`, `type` (a runtime string in the code, the JSON
being unchecked) and its config. -/
structure PipelineNode where
  id : String
  type : String
  config : NodeConfig := {}

/-- A pipeline definition.  In the code `edges` is optional; an absent edge
list and an empty one behave identically (`!pipeline.edges?.length`), so it
is modelled as a plain list. -/
structure PipelineDefinition where
  name : String
  nodes : List PipelineNode
  edges : List PipelineEdge := []

/-! ### The scheduler: `buildExecutionOrder`

The code builds an indegree map (`incomingCount`) and an adjacency map from
the edge list, seeds a FIFO queue with the declared nodes of indegree 0 in
declaration order, and runs Kahn's algorithm; ids absent from both maps read
as `0` resp. `[]` (`?? 0`, `?? []`), so the maps are modelled as total
functions with those defaults. -/

/-- `incomingCount` after the edge pass: every edge increments the count of
its target (declared nodes start at 0, which is also the default). -/
def initialIncoming (edges : List PipelineEdge) : String → Int :=
  edges.foldl (fun f e => Function.update f e.toId (f e.toId + 1)) (fun _ => 0)

/-- `adjacency` after the edge pass: every edge appends its target to the
source's neighbor list (in edge order). -/
def adjacency (edges : List PipelineEdge) : String → List String :=
  edges.foldl (fun f e => Function.update f e.fromId (f e.fromId ++ [e.toId])) (fun _ => [])

/-- The body of `neighbors.forEach(...)`: decrement the indegree of each
neighbor in turn, enqueueing a neighbor exactly when its count reaches 0. -/
def processNeighbors (neighbors : List String) (incoming : String → Int)
    (queue : List String) : (String → Int) × List String :=
  neighbors.foldl
    (fun acc n =>
      let inc := Function.update acc.1 n (acc.1 n - 1)
      if inc n = 0 then (inc, acc.2 ++ [n]) else (inc, acc.2))
    (incoming, queue)

/-- The `while (queue.length)` loop.  The loop always terminates (each id is
enqueued at most once beyond its initial occurrences), which is reflected by
an explicit fuel argument; `kahnFuel` below always exceeds the possible
number of iterations.  `queue.shift()` is FIFO; the `if (!current) continue`
test in the code skips an empty-string id without emitting it. -/
def kahnLoop (adj : String → List String) :
    Nat → (String → Int) → List String → List String → List String
  | 0, _, _, order => order
  | _ + 1, _, [], order => order
  | fuel + 1, incoming, current :: rest, order =>
    if current = "" then
      kahnLoop adj fuel incoming rest order
    else
      let step := processNeighbors (adj current) incoming rest
      kahnLoop adj fuel step.1 step.2 (order ++ [current])

/-- Fuel bound for the loop: the number of dequeues is at most the number of
initially enqueued ids (≤ `nodes.length`) plus the number of ids that are
ever pushed (each push consumes at least one distinct edge, so
≤ `edges.length`). -/
def kahnFuel (p : PipelineDefinition) : Nat :=
  p.nodes.length + p.edges.length + 1

/-- `buildExecutionOrder`: declaration order when there are no edges,
otherwise Kahn's algorithm with declaration-order seeding, followed by the
"remaining nodes" sweep guarded by the length comparison. -/
def buildExecutionOrder (p : PipelineDefinition) : List String :=
  if p.edges.isEmpty then p.nodes.map (fun n => n.id)
  else
    let incoming := initialIncoming p.edges
    let adj := adjacency p.edges
    let queue := (p.nodes.map (fun n => n.id)).filter (fun id => incoming id = 0)
    let order := kahnLoop adj (kahnFuel p) incoming queue []
    if order.length ≠ p.nodes.length then
      order ++ (p.nodes.map (fun n => n.id)).filter (fun id => ¬ order.contains id)
    else order

/-! ### Acyclicity: a finite set in which every vertex has an in-neighbor
contains a cycle -/

/-- The edge relation generated by an edge list. -/
def edgeRel (E : List PipelineEdge) (a b : String) : Prop :=
  ∃ e ∈ E, e.fromId = a ∧ e.toId = b

open Classical in
/-- Chooses, for each member of `S`, an in-neighbor inside `S`. -/
noncomputable def pickPred {α : Type} (r : α → α → Prop) (S : Finset α)
    (h : ∀ b ∈ S, ∃ a ∈ S, r a b) : α → α :=
  fun b => if hb : b ∈ S then (h b hb).choose else b

/-! ### The loop invariant of Kahn's algorithm -/

/-- Number of edges into `v` whose source has not been emitted yet. -/
def remCount (E : List PipelineEdge) (ord : List String) (v : String) : Nat :=
  E.countP (fun e => e.toId == v && !(ord.contains e.fromId))

/-- Number of edges from `c` to `v` (with multiplicity). -/
def edgeCount (E : List PipelineEdge) (c v : String) : Nat :=
  E.countP (fun e => e.fromId == c && e.toId == v)

/-- Invariant of the scheduler's while-loop; `V` is the declared id list,
`E` the edge list, `inc` the current indegree map, `q` the queue and `ord`
the emitted order. -/
structure KahnInv (V : List String) (E : List PipelineEdge)
    (inc : String → Int) (q ord : List String) : Prop where
  ord_nodup : ord.Nodup
  q_nodup : q.Nodup
  disj : ∀ v ∈ ord, v ∉ q
  ord_sub : ∀ v ∈ ord, v ∈ V
  q_sub : ∀ v ∈ q, v ∈ V
  inc_eq : ∀ v, inc v = (remCount E ord v : Int)
  q_iff : ∀ v ∈ V, (v ∈ q ↔ inc v = 0 ∧ v ∉ ord)
  prec : ∀ e ∈ E, e.toId ∈ ord →
    ∃ i j : Nat, i < j ∧ ord[i]? = some e.fromId ∧ ord[j]? = some e.toId

/-- A three-node DAG pipeline (declaration order C, A, B; edges A→B, B→C). -/
def demoDagPipeline : PipelineDefinition :=
  ⟨"demo", [⟨"C", "llm", {}⟩, ⟨"A", "llm", {}⟩, ⟨"B", "llm", {}⟩],
    [⟨"A", "B"⟩, ⟨"B", "C"⟩]⟩

/-- A DAG pipeline containing a node with the empty string as id. -/
def emptyIdPipeline : PipelineDefinition :=
  ⟨"cx", [⟨"b", "llm", {}⟩, ⟨"", "llm", {}⟩], [⟨"", "b"⟩]⟩

/-- A pipeline with a self-loop on `b` and a dangling edge to the
undeclared id `x`. -/
def cycleDanglingPipeline : PipelineDefinition :=
  ⟨"cyc", [⟨"a", "llm", {}⟩, ⟨"b", "llm", {}⟩], [⟨"b", "b"⟩, ⟨"a", "x"⟩]⟩

/-! ### JavaScript values and the template interpolator

`interpolatePrompt` replaces `/\{(.*?)\}/g` matches: a match starts at a
`{`, its token runs to the first following `}`, and `.` does not cross a
JavaScript line terminator.  `resolveTemplateToken` receives the trimmed
token.  `state.variables` maps strings to JavaScript values; `undefined` is
`none` and JavaScript `null` is `JsValue.null`. -/

/-- A JavaScript value, as stored in `state.variables` and produced by
nodes.  Numbers are real; their textual form is the `fmt` parameter. -/
inductive JsValue where
  | str (s : String)
  | num (r : Real)
  | bool (b : Bool)
  | null
  | arr (elems : List JsValue)
  | obj (fields : List (String × JsValue))

/-- JSON string quoting (the escapes relevant to `JSON.stringify`). -/
def jsonQuote (s : String) : String :=
  "\"" ++ String.join (s.data.map (fun c =>
    if c = '"' then "\\\""
    else if c = '\\' then "\\\\"
    else if c = '\n' then "\\n"
    else if c = '\r' then "\\r"
    else if c = '\t' then "\\t"
    else String.singleton c)) ++ "\""

mutual

/-- `JSON.stringify` over the modelled values (number formatting is the
`fmt` parameter). -/
def serializeJsValue (fmt : Real → String) : JsValue → String
  | .str s => jsonQuote s
  | .num r => fmt r
  | .bool b => if b then "true" else "false"
  | .null => "null"
  | .arr elems => "[" ++ serializeJsList fmt elems ++ "]"
  | .obj fields => "\x7b" ++ serializeJsFields fmt fields ++ "\x7d"

def serializeJsList (fmt : Real → String) : List JsValue → String
  | [] => ""
  | [v] => serializeJsValue fmt v
  | v :: w :: rest => serializeJsValue fmt v ++ "," ++ serializeJsList fmt (w :: rest)

def serializeJsFields (fmt : Real → String) : List (String × JsValue) → String
  | [] => ""
  | [(k, v)] => jsonQuote k ++ ":" ++ serializeJsValue fmt v
  | (k, v) :: w :: rest =>
    jsonQuote k ++ ":" ++ serializeJsValue fmt v ++ "," ++ serializeJsFields fmt (w :: rest)

end

/-- The per-run mutable pipeline state. -/
structure PipelineState where
  input : String
  context : Option String := none
  intent : Option String := none
  lastOutput : Option String := none
  vars : String → Option JsValue := fun _ => none

/-- `String(x)` / `JSON.stringify(x)` rendering of a defined non-null
variable value, as the interpolator performs it: strings pass through,
objects (and arrays) are serialized to JSON, other scalars take their
textual form. -/
def jsDisplayValue (fmt : Real → String) : JsValue → String
  | .str s => s
  | .num r => fmt r
  | .bool b => if b then "true" else "false"
  | .null => ""
  | .arr elems => serializeJsValue fmt (.arr elems)
  | .obj fields => serializeJsValue fmt (.obj fields)

/-- `toLowerCase()`: ASCII lowercasing, modelled character-wise (structural
recursion over the character list, so it evaluates definitionally). -/
def jsToLower (s : String) : String := String.mk (s.data.map Char.toLower)

/-- `trim()`: strips leading and trailing whitespace (modelled over the
ASCII whitespace characters, structurally). -/
def jsTrim (s : String) : String :=
  String.mk (((s.data.dropWhile Char.isWhitespace).reverse.dropWhile
    Char.isWhitespace).reverse)

/-- `resolveTemplateToken`: empty token short-circuits (`if (!token)`),
reserved tokens match case-insensitively, anything else is looked up in
`variables` by exact key and then by lowercased key (`??` skips both
`undefined` and `null`). -/
def resolveTemplateToken (fmt : Real → String) (token : String)
    (state : PipelineState) : String :=
  if token = "" then ""
  else
    let normalized := jsToLower token
    if normalized = "input" then state.input
    else if normalized = "context" then state.context.getD ""
    else if normalized = "intent" then state.intent.getD ""
    else if normalized = "last_output" then state.lastOutput.getD ""
    else
      let directValue : Option JsValue :=
        match state.vars token with
        | none => state.vars normalized
        | some .null => state.vars normalized
        | some v => some v
      match directValue with
      | none => ""
      | some .null => ""
      | some v => jsDisplayValue fmt v

/-- The opening brace character. -/
def openBraceChar : Char := Char.ofNat 123

/-- The closing brace character. -/
def closeBraceChar : Char := Char.ofNat 125

/-- JavaScript line terminators, which `.` does not match. -/
def isLineTerminator (c : Char) : Bool :=
  c == '\n' || c == '\r' || c == Char.ofNat 0x2028 || c == Char.ofNat 0x2029

/-- Scans for the first `}` reachable without crossing a line terminator:
the token of a `/\{(.*?)\}/` match beginning at the dropped `{`. -/
def findCloseBrace : List Char → Option (List Char × List Char)
  | [] => none
  | c :: cs =>
    if c = closeBraceChar then some ([], cs)
    else if isLineTerminator c then none
    else
      match findCloseBrace cs with
      | none => none
      | some (tok, rest) => some (c :: tok, rest)

/-- The global-replace scan of `template.replace(/\{(.*?)\}/g, ...)`: at a
`{` with a reachable `}`, the token between them is trimmed, resolved and
substituted and the scan resumes after the `}`; otherwise the character is
copied.  The fuel argument only reflects that every step consumes at least
one character; it is instantiated with the template length, which always
suffices. -/
def interpolateGo (fmt : Real → String) (state : PipelineState) :
    Nat → List Char → List Char
  | 0, _ => []
  | _ + 1, [] => []
  | fuel + 1, c :: cs =>
    if c = openBraceChar then
      match findCloseBrace cs with
      | some (tok, rest) =>
        (resolveTemplateToken fmt (jsTrim (String.mk tok)) state).data
          ++ interpolateGo fmt state fuel rest
      | none => c :: interpolateGo fmt state fuel cs
    else c :: interpolateGo fmt state fuel cs

/-- `interpolatePrompt(template, state)`. -/
def interpolatePrompt (fmt : Real → String) (template : String)
    (state : PipelineState) : String :=
  String.mk (interpolateGo fmt state template.data.length template.data)

/-- State for the C3 counterexample: `variables` carries a value at the
empty key and distinct values at `" y "` and `"y"`. -/
def c3CxState : PipelineState :=
  { input := "IN",
    vars := fun k =>
      if k = "" then some (JsValue.str "x")
      else if k = " y " then some (JsValue.str "A")
      else if k = "y" then some (JsValue.str "B")
      else none }

/-- A pipeline state for the C3 witness. -/
def c3WitnessState : PipelineState :=
  { input := "hello", context := some "ctx",
    vars := fun k => if k = "answer" then some (JsValue.str "42") else none }

/-! ### The retrieval scorer -/

/-- An indexed knowledge entry: the original fields plus the derived
`tokens` and optional `embedding`. -/
structure IndexedKnowledgeEntry where
  id : Option String := none
  title : String := ""
  content : String := ""
  summary : Option String := none
  tags : Option (List String) := none
  keywords : Option (List String) := none
  priority : Option Real := none
  weight : Option Real := none
  tokens : List String := []
  embedding : Option (List Real) := none

/-- `entry.priority ?? entry.weight ?? 1`. -/
noncomputable def effectivePriority (entry : IndexedKnowledgeEntry) : Real :=
  entry.priority.getD (entry.weight.getD 1)

/-- `calculateLexicalScore`: 0 for a token-less entry; 0 on zero overlap
against a non-empty query; otherwise
`(overlap + 0.1·tagCount) · priority / (ln(tokenCount+1) + 1)`. -/
noncomputable def calculateLexicalScore (queryTokens : List String)
    (entry : IndexedKnowledgeEntry) : Real :=
  if entry.tokens.isEmpty then 0
  else
    let overlap := queryTokens.countP (fun t => entry.tokens.contains t)
    if overlap = 0 ∧ queryTokens.length ≠ 0 then 0
    else
      let priority := effectivePriority entry
      let lengthPenalty := Real.log ((entry.tokens.length : Real) + 1) + 1
      (((overlap : Real) + 0.1 * ((entry.tags.getD []).length : Real)) * priority)
        / lengthPenalty

open Classical in
/-- `cosineSimilarity`: 0 on empty or mismatched vectors or a zero norm,
otherwise `dot / (sqrt(normA) · sqrt(normB))` (the source accumulates the
three sums in one index loop). -/
noncomputable def cosineSimilarity (a b : List Real) : Real :=
  if a.isEmpty ∨ b.isEmpty ∨ a.length ≠ b.length then 0
  else
    let dot := (a.zip b).foldl (fun acc p => acc + p.1 * p.2) 0
    let normA := a.foldl (fun acc x => acc + x * x) 0
    let normB := b.foldl (fun acc x => acc + x * x) 0
    if normA = 0 ∨ normB = 0 then 0
    else dot / (Real.sqrt normA * Real.sqrt normB)

/-- `scoreKnowledgeEntry`: blend cosine similarity with the lexical score
when a query embedding and a commensurate entry embedding both exist,
otherwise the lexical score alone. -/
noncomputable def scoreKnowledgeEntry (queryTokens : List String)
    (entry : IndexedKnowledgeEntry) (queryEmbedding : Option (List Real)) : Real :=
  let lexicalScore := calculateLexicalScore queryTokens entry
  match queryEmbedding, entry.embedding with
  | some qe, some emb =>
    if emb.length = qe.length then
      cosineSimilarity qe emb * effectivePriority entry + lexicalScore * 0.25
    else lexicalScore
  | _, _ => lexicalScore

open Classical in
/-- One insertion step of the stable descending sort modelling
`sort((a, b) => b.score - a.score)`: the inserted element precedes the
first strictly smaller score and follows all scores at least as large. -/
noncomputable def insertScoredDesc (x : IndexedKnowledgeEntry × Real) :
    List (IndexedKnowledgeEntry × Real) → List (IndexedKnowledgeEntry × Real)
  | [] => [x]
  | y :: ys => if x.2 < y.2 then y :: insertScoredDesc x ys else x :: y :: ys

/-- Stable descending insertion sort by score (`Array.prototype.sort` is
stable and the comparator orders by descending score). -/
noncomputable def sortScoredDesc :
    List (IndexedKnowledgeEntry × Real) → List (IndexedKnowledgeEntry × Real)
  | [] => []
  | x :: xs => insertScoredDesc x (sortScoredDesc xs)

open Classical in
/-- The local ranking path of `runRetrieverNode` (lines 519–532): score
every entry, keep positive scores unless the query is empty, sort stably by
descending score, slice to `topK`, and fall back to the first
`min(topK, N)` entries with score 0 when nothing survived and the knowledge
base is non-empty. -/
noncomputable def rankKnowledgeEntries (queryTokens : List String)
    (queryEmbedding : Option (List Real))
    (knowledgeBase : List IndexedKnowledgeEntry) (topK : Nat) :
    List (IndexedKnowledgeEntry × Real) :=
  let scored := ((knowledgeBase.map (fun entry =>
      (entry, scoreKnowledgeEntry queryTokens entry queryEmbedding))).filter
      (fun pr => 0 < pr.2 ∨ queryTokens.isEmpty))
  let sliced := (sortScoredDesc scored).take topK
  if sliced.isEmpty ∧ ¬ knowledgeBase.isEmpty then
    (knowledgeBase.map (fun entry => (entry, (0 : Real)))).take
      (min topK knowledgeBase.length)
  else sliced

/-- Entry for the C4 counterexample: no tokens but two tags. -/
def c4TokenlessEntry : IndexedKnowledgeEntry :=
  { title := "t", content := "c", tags := some ["a", "b"], priority := some 2 }

/-- Entry for the C4 counterexample: tokens that miss the query. -/
def c4ZeroOverlapEntry : IndexedKnowledgeEntry :=
  { title := "z", content := "c", tokens := ["a"] }

/-- Entry for the C4 witness. -/
def c4WitnessEntry : IndexedKnowledgeEntry :=
  { title := "w", content := "c", tokens := ["a", "b"], tags := some ["t"],
    priority := some 2 }

/-- Entry missing the witness query entirely. -/
def c4MissEntry : IndexedKnowledgeEntry :=
  { title := "m", content := "c", tokens := ["c"] }

/-- Tagless entries for the C5 witness. -/
def c5W1 : IndexedKnowledgeEntry := { title := "w1", content := "c", tokens := ["a"] }

/-- Second tagless witness entry. -/
def c5W2 : IndexedKnowledgeEntry := { title := "w2", content := "c", tokens := ["b"] }

/-- Untagged counterexample entry (declared first). -/
def c5PlainEntry : IndexedKnowledgeEntry :=
  { title := "one", content := "c", tokens := ["a"] }

/-- Tagged counterexample entry (declared second). -/
def c5TaggedEntry : IndexedKnowledgeEntry :=
  { title := "two", content := "c", tokens := ["b"], tags := some ["t"] }

/-- Low-priority entry for C6. -/
def c6Lo : IndexedKnowledgeEntry :=
  { title := "p1", content := "c", tokens := ["a"], priority := some 1 }

/-- High-priority entry for C6. -/
def c6Hi : IndexedKnowledgeEntry :=
  { title := "p2", content := "c", tokens := ["a"], priority := some 2 }

/-- First entry of the C8 witness base. -/
def c8E1 : IndexedKnowledgeEntry := { title := "k1", content := "c", tokens := ["a"] }

/-- Second entry of the C8 witness base. -/
def c8E2 : IndexedKnowledgeEntry := { title := "k2", content := "c", tokens := ["b"] }

/-! ### The pipeline executor

External collaborators (the model invocation — including the message
content extraction —, the embedding provider, the vector store and the two
mock tool services) are total functions bundled in `ExternalServices`; the
knowledge index is a map from source name to indexed entries. -/

/-- One hit returned by the external vector store (metadata flattened). -/
structure VectorSearchResult where
  id : String := ""
  title : String := ""
  content : String := ""
  summary : Option String := none
  tags : Option (List String) := none
  keywords : Option (List String) := none
  score : Real := 0

/-- The external collaborators of the engine. -/
structure ExternalServices where
  invokeModel : String → Option String → Option Real → String
  embedQuery : String → Option (List Real)
  semanticSearch : String → List Real → Nat → List VectorSearchResult
  productSearch : String → JsValue
  locationSearch : String → JsValue

/-- `BadRequestException` / `NotFoundException` with their messages. -/
inductive PipelineError where
  | badRequest (msg : String)
  | notFound (msg : String)
deriving DecidableEq

/-- One entry of the step trace. -/
structure PipelineStepRecord where
  nodeId : String
  type : String
  output : JsValue
  model : Option String
  temperature : Option Real

/-- The result object of `executePipeline`. -/
structure PipelineRunOutcome where
  finalOutput : String
  intent : Option String
  context : Option String
  steps : List PipelineStepRecord

/-- Property access `v.key` on a JavaScript object. -/
def jsField (v : JsValue) (key : String) : Option JsValue :=
  match v with
  | .obj fields => (fields.find? (fun f => f.1 == key)).map (fun f => f.2)
  | _ => none

/-- Truthiness of an optional string (`undefined` and `""` are falsy). -/
def optStringTruthy (s : Option String) : Bool :=
  match s with
  | some s => !(s == "")
  | none => false

/-- Is `c` a lowercase ASCII letter or digit (the token alphabet of
`split(/[^a-z0-9]+/)`)? -/
def isAlnumLower (c : Char) : Bool :=
  ('a' ≤ c && c ≤ 'z') || ('0' ≤ c && c ≤ '9')

/-- Splits a lowercased character list into maximal alphanumeric runs
(the accumulator holds the current run, reversed). -/
def tokenizeChars : List Char → List Char → List String
  | [], acc => if acc.isEmpty then [] else [String.mk acc.reverse]
  | c :: cs, acc =>
    if isAlnumLower c then tokenizeChars cs (c :: acc)
    else if acc.isEmpty then tokenizeChars cs []
    else String.mk acc.reverse :: tokenizeChars cs []

/-- `tokenizeText`: lowercase, split on non-alphanumeric runs, drop empty
pieces (`filter(Boolean)`). -/
def tokenizeText (text : String) : List String :=
  tokenizeChars (jsToLower text).data []

/-- `[state.input, state.intent].filter(Boolean)`. -/
def presentParts (state : PipelineState) : List String :=
  (if state.input = "" then [] else [state.input]) ++
    (match state.intent with
     | some i => if i = "" then [] else [i]
     | none => [])

/-- `embedText`: skip blank text, otherwise ask the embedding provider
(whose failure is already modelled by `none`). -/
def embedText (svc : ExternalServices) (text : String) : Option (List Real) :=
  if jsTrim text = "" then none else svc.embedQuery text

/-- `generateQueryEmbedding`: embed `input` and `intent` joined by a
newline. -/
def generateQueryEmbedding (svc : ExternalServices) (state : PipelineState) :
    Option (List Real) :=
  embedText svc (String.intercalate "\n" (presentParts state))

/-- One `Snippet k - title / Summary: ... / content` block. -/
def snippetOf (idx : Nat) (title : String) (summary : Option String)
    (content : String) : String :=
  "Snippet " ++ toString (idx + 1) ++ " - " ++ title ++ "\n" ++
    "Summary: " ++ (summary.getD "n/a") ++ "\n" ++ content

/-- The match object built from a vector-store hit (JSON-absent optional
fields are omitted, mirroring their disappearance under
`JSON.stringify`). -/
noncomputable def vectorMatchToJs (idx : Nat) (r : VectorSearchResult) : JsValue :=
  .obj ([("rank", JsValue.num ((idx + 1 : Nat) : Real)),
    ("id", JsValue.str r.id), ("title", JsValue.str r.title),
    ("content", JsValue.str r.content)] ++
    (match r.summary with
     | some s => [("summary", JsValue.str s)]
     | none => []) ++
    (match r.tags with
     | some ts => [("tags", JsValue.arr (ts.map JsValue.str))]
     | none => []) ++
    (match r.keywords with
     | some ks => [("keywords", JsValue.arr (ks.map JsValue.str))]
     | none => []) ++
    [("score", JsValue.num r.score)])

/-- The match object built from a locally scored entry. -/
noncomputable def localMatchToJs (idx : Nat) (pr : IndexedKnowledgeEntry × Real) :
    JsValue :=
  .obj ([("rank", JsValue.num ((idx + 1 : Nat) : Real))] ++
    (match pr.1.id with
     | some i => [("id", JsValue.str i)]
     | none => []) ++
    [("title", JsValue.str pr.1.title), ("content", JsValue.str pr.1.content)] ++
    (match pr.1.summary with
     | some s => [("summary", JsValue.str s)]
     | none => []) ++
    (match pr.1.tags with
     | some ts => [("tags", JsValue.arr (ts.map JsValue.str))]
     | none => []) ++
    (match pr.1.keywords with
     | some ks => [("keywords", JsValue.arr (ks.map JsValue.str))]
     | none => []) ++
    [("score", JsValue.num pr.2)])

/-- `runLlmNode`: interpolate the prompt template (default `"{input}"`),
invoke the model (with any `model`/`temperature` overrides) and trim the
extracted content. -/
def runLlmNode (svc : ExternalServices) (fmt : Real → String)
    (node : PipelineNode) (state : PipelineState) : String :=
  let promptTemplate := node.config.prompt.getD "\x7binput\x7d"
  let prompt := interpolatePrompt fmt promptTemplate state
  jsTrim (svc.invokeModel prompt node.config.model node.config.temperature)

/-- `runRetrieverNode`: reject a missing `source` (`if (!source)`, so the
empty string is also rejected) or an unknown/empty knowledge source;
otherwise prefer a non-empty vector-store result set and fall back to
local lexical ranking. -/
noncomputable def runRetrieverNode (svc : ExternalServices)
    (knowledgeBaseIndex : String → Option (List IndexedKnowledgeEntry))
    (node : PipelineNode) (state : PipelineState) :
    Except PipelineError JsValue :=
  match node.config.source with
  | none => .error (.badRequest
      ("Retriever node \"" ++ node.id ++ "\" is missing a source configuration."))
  | some source =>
    if source = "" then .error (.badRequest
      ("Retriever node \"" ++ node.id ++ "\" is missing a source configuration."))
    else match knowledgeBaseIndex source with
    | none => .error (.notFound
        ("Knowledge source \"" ++ source ++ "\" is not configured or empty."))
    | some knowledgeBase =>
      if knowledgeBase.isEmpty then
        .error (.notFound
          ("Knowledge source \"" ++ source ++ "\" is not configured or empty."))
      else
        let topK := match node.config.top_k with
          | some k => k
          | none => node.config.topK.getD 3
        let queryContext := jsToLower (String.intercalate " " (presentParts state))
        let queryTokens := tokenizeText queryContext
        let queryEmbedding := generateQueryEmbedding svc state
        let vectorResults := match queryEmbedding with
          | some qe => svc.semanticSearch source qe topK
          | none => []
        if ¬ vectorResults.isEmpty then
          let context := String.intercalate "\n\n" (vectorResults.enum.map
            (fun pr => snippetOf pr.1 pr.2.title pr.2.summary pr.2.content))
          .ok (.obj [("source", JsValue.str source),
            ("matches", JsValue.arr (vectorResults.enum.map
              (fun pr => vectorMatchToJs pr.1 pr.2))),
            ("context", JsValue.str context)])
        else
          let scored := rankKnowledgeEntries queryTokens queryEmbedding
            knowledgeBase topK
          let context := if scored.isEmpty then
              "No relevant knowledge found in the configured knowledge base."
            else String.intercalate "\n\n" (scored.enum.map
              (fun pr => snippetOf pr.1 pr.2.1.title pr.2.1.summary pr.2.1.content))
          .ok (.obj [("source", JsValue.str source),
            ("matches", JsValue.arr (scored.enum.map
              (fun pr => localMatchToJs pr.1 pr.2))),
            ("context", JsValue.str context)])

/-- `runToolNode`: reject a missing `toolName` (`if (!toolName)`, so the
empty string is also rejected) or an unregistered one; the two mock
services receive the lowercased `input + ' ' + intent` query. -/
def runToolNode (svc : ExternalServices) (node : PipelineNode)
    (state : PipelineState) : Except PipelineError JsValue :=
  match node.config.toolName with
  | none => .error (.badRequest
      ("Tool node \"" ++ node.id ++ "\" is missing \x27toolName\x27 config."))
  | some toolName =>
    if toolName = "" then
      .error (.badRequest
        ("Tool node \"" ++ node.id ++ "\" is missing \x27toolName\x27 config."))
    else if toolName = "mock_product_api" then
      .ok (svc.productSearch (jsToLower (state.input ++ " " ++ state.intent.getD "")))
    else if toolName = "mock_location_api" then
      .ok (svc.locationSearch (jsToLower (state.input ++ " " ++ state.intent.getD "")))
    else
      .error (.badRequest ("Unknown tool name \"" ++ toolName ++
        "\" requested by node \"" ++ node.id ++ "\"."))

/-- Does `s` contain `sub` as a contiguous substring (`includes`)? -/
def startsWithChars : List Char → List Char → Bool
  | _, [] => true
  | [], _ :: _ => false
  | c :: cs, d :: ds => c == d && startsWithChars cs ds

/-- Substring search over character lists. -/
def containsChars : List Char → List Char → Bool
  | [], sub => sub.isEmpty
  | c :: cs, sub => startsWithChars (c :: cs) sub || containsChars cs sub

/-- `s.includes(sub)`. -/
def jsIncludes (s sub : String) : Bool := containsChars s.data sub.data

/-- `lastOutput` stringification: strings pass, objects (including `null`
and arrays) are JSON-serialized, other scalars take their textual form. -/
def stringifyOutput (fmt : Real → String) : JsValue → String
  | .str s => s
  | .num r => fmt r
  | .bool b => if b then "true" else "false"
  | v => serializeJsValue fmt v

/-- The node dispatch of `executePipeline`'s loop body, including the
per-type state mutations (intent capture and context seeding for llm
nodes, context overwrite for retriever nodes, context append for tool
nodes) but not the type-independent bookkeeping (`afterNode`). -/
noncomputable def execNode (svc : ExternalServices) (fmt : Real → String)
    (knowledgeBaseIndex : String → Option (List IndexedKnowledgeEntry))
    (node : PipelineNode) (state : PipelineState) :
    Except PipelineError (JsValue × PipelineState) :=
  if node.type = "llm" then
    let output := runLlmNode svc fmt node state
    let st1 := if jsIncludes (jsToLower node.id) "intent" then
        { state with intent := some (jsTrim output) }
      else state
    let st2 := if optStringTruthy st1.context then st1
      else { st1 with context := some output }
    .ok (.str output, st2)
  else if node.type = "retriever" then
    match runRetrieverNode svc knowledgeBaseIndex node state with
    | .error e => .error e
    | .ok output =>
      let st1 := match jsField output "context" with
        | some (.str c) => if c ≠ "" then { state with context := some c } else state
        | _ => state
      .ok (output, st1)
  else if node.type = "tool" then
    match runToolNode svc node state with
    | .error e => .error e
    | .ok output =>
      let isStr := match output with
        | .str _ => true
        | _ => false
      let isObjNonNull := match output with
        | .obj _ => true
        | .arr _ => true
        | _ => false
      if isStr || isObjNonNull then
        let toolOutputStr := match output with
          | .str s => s
          | v => serializeJsValue fmt v
        let attributed := "Tool Output (" ++ node.id ++ "): " ++ toolOutputStr
        let newCtx := match state.context with
          | some c => if c ≠ "" then c ++ "\n\n" ++ attributed else attributed
          | none => attributed
        .ok (output, { state with context := some newCtx })
      else .ok (output, state)
  else .error (.badRequest
    ("Unsupported pipeline node type \"" ++ node.type ++ "\"."))

/-- The type-independent bookkeeping after a node: set `lastOutput` and
store the raw output under the node id and its lowercased id. -/
def afterNode (fmt : Real → String) (node : PipelineNode) (output : JsValue)
    (state : PipelineState) : PipelineState :=
  { state with
    lastOutput := some (stringifyOutput fmt output)
    vars := Function.update (Function.update state.vars node.id (some output))
      (jsToLower node.id) (some output) }

/-- The step-trace record of a node execution. -/
def makeStepRecord (node : PipelineNode) (output : JsValue) : PipelineStepRecord :=
  { nodeId := node.id
    type := node.type
    output := output
    model := node.config.model
    temperature := node.config.temperature }

/-- The `for (const nodeId of orderedNodeIds)` loop: unresolvable ids are
skipped with a warning, a node failure aborts the run (no partial trace is
returned), and each executed node appends one step record. -/
noncomputable def execLoop (svc : ExternalServices) (fmt : Real → String)
    (knowledgeBaseIndex : String → Option (List IndexedKnowledgeEntry))
    (nodes : List PipelineNode) :
    List String → PipelineState → List PipelineStepRecord →
    Except PipelineError (PipelineState × List PipelineStepRecord)
  | [], state, steps => .ok (state, steps)
  | nodeId :: rest, state, steps =>
    match nodes.find? (fun n => n.id == nodeId) with
    | none => execLoop svc fmt knowledgeBaseIndex nodes rest state steps
    | some node =>
      match execNode svc fmt knowledgeBaseIndex node state with
      | .error e => .error e
      | .ok (output, st1) =>
        execLoop svc fmt knowledgeBaseIndex nodes rest
          (afterNode fmt node output st1)
          (steps ++ [makeStepRecord node output])

/-- The fresh state of a run: `input` is the user input, `context`,
`intent` and `lastOutput` start as empty strings, no variables. -/
def initialState (userInput : String) : PipelineState :=
  { input := userInput
    context := some ""
    intent := some ""
    lastOutput := some ""
    vars := fun _ => none }

/-- `executePipeline`: fresh state, scheduler order, node loop, and the
final `{finalOutput, intent, context, steps}` projection. -/
noncomputable def executePipeline (svc : ExternalServices) (fmt : Real → String)
    (knowledgeBaseIndex : String → Option (List IndexedKnowledgeEntry))
    (pipeline : PipelineDefinition) (userInput : String) :
    Except PipelineError PipelineRunOutcome :=
  match execLoop svc fmt knowledgeBaseIndex pipeline.nodes
      (buildExecutionOrder pipeline) (initialState userInput) [] with
  | .error e => .error e
  | .ok (st, steps) =>
    .ok { finalOutput := st.lastOutput.getD ""
          intent := st.intent
          context := st.context
          steps := steps }

/-- The configuration check a node must pass to execute, together with the
error it raises otherwise (none of the checks consults the run state). -/
def nodeConfigError
    (knowledgeBaseIndex : String → Option (List IndexedKnowledgeEntry))
    (node : PipelineNode) : Option PipelineError :=
  if node.type = "llm" then none
  else if node.type = "retriever" then
    match node.config.source with
    | none => some (.badRequest
        ("Retriever node \"" ++ node.id ++ "\" is missing a source configuration."))
    | some source =>
      if source = "" then some (.badRequest
        ("Retriever node \"" ++ node.id ++ "\" is missing a source configuration."))
      else match knowledgeBaseIndex source with
      | none => some (.notFound
          ("Knowledge source \"" ++ source ++ "\" is not configured or empty."))
      | some kb =>
        if kb.isEmpty then
          some (.notFound
            ("Knowledge source \"" ++ source ++ "\" is not configured or empty."))
        else none
  else if node.type = "tool" then
    match node.config.toolName with
    | none => some (.badRequest
        ("Tool node \"" ++ node.id ++ "\" is missing \x27toolName\x27 config."))
    | some toolName =>
      if toolName = "" then some (.badRequest
        ("Tool node \"" ++ node.id ++ "\" is missing \x27toolName\x27 config."))
      else if toolName = "mock_product_api" ∨ toolName = "mock_location_api" then
        none
      else some (.badRequest ("Unknown tool name \"" ++ toolName ++
        "\" requested by node \"" ++ node.id ++ "\"."))
  else some (.badRequest
    ("Unsupported pipeline node type \"" ++ node.type ++ "\"."))

/-- The nodes the loop actually executes: scheduler order, resolved
against the node list, unresolvable ids skipped. -/
def resolvedNodes (nodes : List PipelineNode) (order : List String) :
    List PipelineNode :=
  order.filterMap (fun id => nodes.find? (fun n => n.id == id))

/-- The first configuration error along the execution order, if any. -/
def firstConfigError
    (knowledgeBaseIndex : String → Option (List IndexedKnowledgeEntry))
    (nodes : List PipelineNode) (order : List String) : Option PipelineError :=
  (resolvedNodes nodes order).findSome? (nodeConfigError knowledgeBaseIndex)

def c9Svc : ExternalServices :=
  { invokeModel := fun p _ _ => p
    embedQuery := fun _ => none
    semanticSearch := fun _ _ _ => []
    productSearch := fun _ => JsValue.str "p"
    locationSearch := fun _ => JsValue.str "l" }

def c9Fmt : Real → String := fun _ => ""

def c9EmptyIdx : String → Option (List IndexedKnowledgeEntry) := fun _ => none

def c9Node : PipelineNode := { id := "r", type := "retriever" }

def c9BadPipeline : PipelineDefinition :=
  { name := "bad", nodes := [c9Node] }

def c10Node : PipelineNode := { id := "n", type := "llm" }

def c10Pipeline : PipelineDefinition :=
  { name := "demo10", nodes := [c10Node] }

/-! ### Characterizing the scheduler's maps -/

theorem countP_and_split (l : List α) (p q : α → Bool) :
    l.countP p = l.countP (fun a => p a && q a) + l.countP (fun a => p a && !q a) := by
  induction l with
  | nil => simp
  | cons a l ih =>
    simp only [List.countP_cons, ih]
    cases hp : p a <;> cases hq : q a <;> simp [hp, hq] <;> omega

theorem initialIncoming_aux (E : List PipelineEdge) :
    ∀ (f : String → Int) (v : String),
      (E.foldl (fun f e => Function.update f e.toId (f e.toId + 1)) f) v
        = f v + E.countP (fun e => e.toId == v) := by
  induction E with
  | nil => intro f v; simp
  | cons e E ih =>
    intro f v
    simp only [List.foldl_cons, List.countP_cons, ih]
    by_cases h : e.toId = v
    · subst h
      simp [Function.update_same]
      omega
    · rw [Function.update_noteq (fun hv => h hv.symm)]
      simp [h]

theorem initialIncoming_eq (E : List PipelineEdge) (v : String) :
    initialIncoming E v = (E.countP (fun e => e.toId == v) : Int) := by
  simpa using initialIncoming_aux E (fun _ => 0) v

theorem adjacency_aux (E : List PipelineEdge) :
    ∀ (f : String → List String) (u : String),
      (E.foldl (fun (f : String → List String) e =>
          Function.update f e.fromId (f e.fromId ++ [e.toId])) f) u
        = f u ++ (E.filter (fun e => e.fromId == u)).map (fun e => e.toId) := by
  induction E with
  | nil => intro f u; simp
  | cons e E ih =>
    intro f u
    simp only [List.foldl_cons, ih]
    by_cases h : e.fromId = u
    · subst h
      simp [Function.update_same]
    · rw [Function.update_noteq (fun hv => h hv.symm)]
      simp [h]

theorem adjacency_eq (E : List PipelineEdge) (u : String) :
    adjacency E u = (E.filter (fun e => e.fromId == u)).map (fun e => e.toId) := by
  simpa using adjacency_aux E (fun _ => []) u

theorem adjacency_count (E : List PipelineEdge) (u v : String) :
    (adjacency E u).count v = E.countP (fun e => e.fromId == u && e.toId == v) := by
  rw [adjacency_eq]
  rw [List.count_eq_countP, List.countP_map, List.countP_filter]
  apply List.countP_congr
  intro e _
  simp [Function.comp, Bool.and_comm]

theorem processNeighbors_nil (inc : String → Int) (q : List String) :
    processNeighbors [] inc q = (inc, q) := rfl

theorem processNeighbors_cons (n : String) (ns : List String) (inc : String → Int)
    (q : List String) :
    processNeighbors (n :: ns) inc q =
      processNeighbors ns (Function.update inc n (inc n - 1))
        (if inc n = 1 then q ++ [n] else q) := by
  show List.foldl _ _ _ = _
  rw [List.foldl_cons]
  simp only [processNeighbors, Function.update_same]
  by_cases h : inc n - 1 = 0
  · rw [if_pos h, if_pos (by omega)]
  · rw [if_neg h, if_neg (by omega)]

theorem processNeighbors_fst (ns : List String) :
    ∀ (inc : String → Int) (q : List String) (v : String),
      (processNeighbors ns inc q).1 v = inc v - (ns.count v : Int) := by
  induction ns with
  | nil => intro inc q v; simp [processNeighbors_nil]
  | cons n ns ih =>
    intro inc q v
    rw [processNeighbors_cons]
    by_cases h : v = n
    · subst h
      rw [ih, Function.update_same, List.count_cons_self]
      push_cast
      omega
    · rw [ih, Function.update_noteq h, List.count_cons_of_ne h]

theorem processNeighbors_snd (ns : List String) :
    ∀ (inc : String → Int) (q : List String),
      ∃ ext, (processNeighbors ns inc q).2 = q ++ ext ∧ ext.Nodup ∧
        ∀ v, v ∈ ext ↔ 1 ≤ inc v ∧ inc v ≤ (ns.count v : Int) := by
  induction ns with
  | nil =>
    intro inc q
    refine ⟨[], by simp [processNeighbors_nil], by simp, ?_⟩
    intro v
    simp only [List.count_nil]
    constructor
    · intro h; simp at h
    · intro ⟨h1, h2⟩; omega
  | cons n ns ih =>
    intro inc q
    rw [processNeighbors_cons]
    by_cases h : inc n = 1
    · rw [if_pos h]
      obtain ⟨ext, heq, hnd, hmem⟩ := ih (Function.update inc n (inc n - 1)) (q ++ [n])
      refine ⟨n :: ext, by simpa using heq, ?_, ?_⟩
      · refine List.Nodup.cons ?_ hnd
        intro hn
        have := (hmem n).mp hn
        rw [Function.update_same] at this
        omega
      · intro v
        by_cases hv : v = n
        · subst hv
          simp only [List.mem_cons, true_or, true_iff]
          constructor
          · omega
          · rw [h, List.count_cons_self]; push_cast; omega
        · rw [List.count_cons_of_ne hv]
          have := hmem v
          rw [Function.update_noteq hv] at this
          simp only [List.mem_cons, hv, false_or]
          exact this
    · rw [if_neg h]
      obtain ⟨ext, heq, hnd, hmem⟩ := ih (Function.update inc n (inc n - 1)) q
      refine ⟨ext, heq, hnd, ?_⟩
      intro v
      by_cases hv : v = n
      · subst hv
        have := hmem v
        rw [Function.update_same] at this
        rw [this, List.count_cons_self]
        push_cast
        omega
      · rw [List.count_cons_of_ne hv]
        have := hmem v
        rw [Function.update_noteq hv] at this
        exact this

theorem pickPred_spec {α : Type} (r : α → α → Prop) (S : Finset α)
    (h : ∀ b ∈ S, ∃ a ∈ S, r a b) (b : α) (hb : b ∈ S) :
    pickPred r S h b ∈ S ∧ r (pickPred r S h b) b := by
  rw [pickPred, dif_pos hb]
  exact ⟨(h b hb).choose_spec.1, (h b hb).choose_spec.2⟩

/-- If every element of a nonempty finite set has a predecessor inside the
set, the relation has a cycle (a nonempty path from some vertex to itself). -/
theorem exists_transGen_cycle {α : Type} (r : α → α → Prop) (S : Finset α)
    (hne : S.Nonempty) (h : ∀ b ∈ S, ∃ a ∈ S, r a b) :
    ∃ v, Relation.TransGen r v v := by
  classical
  obtain ⟨x0, hx0⟩ := hne
  have hS : ∀ n : Nat, (pickPred r S h)^[n] x0 ∈ S := by
    intro n
    induction n with
    | zero => simpa using hx0
    | succ k ih =>
      rw [Function.iterate_succ_apply']
      exact (pickPred_spec r S h _ ih).1
  have hstep : ∀ n : Nat, r ((pickPred r S h)^[n + 1] x0) ((pickPred r S h)^[n] x0) := by
    intro n
    rw [Function.iterate_succ_apply']
    exact (pickPred_spec r S h _ (hS n)).2
  have hchain : ∀ m n : Nat, n < m →
      Relation.TransGen r ((pickPred r S h)^[m] x0) ((pickPred r S h)^[n] x0) := by
    intro m
    induction m with
    | zero => intro n hn; exact absurd hn (Nat.not_lt_zero n)
    | succ k ih =>
      intro n hn
      rcases Nat.lt_succ_iff_lt_or_eq.mp hn with h' | h'
      · exact Relation.TransGen.head (hstep k) (ih n h')
      · subst h'
        exact Relation.TransGen.single (hstep n)
  have hcard : S.card < (Finset.range (S.card + 1)).card := by simp
  obtain ⟨i, _, j, _, hij, hgij⟩ :=
    Finset.exists_ne_map_eq_of_card_lt_of_maps_to hcard (fun i _ => hS i)
  rcases hij.lt_or_lt with hlt | hlt
  · exact ⟨(pickPred r S h)^[j] x0, by nth_rewrite 2 [← hgij]; exact hchain j i hlt⟩
  · exact ⟨(pickPred r S h)^[i] x0, by nth_rewrite 2 [hgij]; exact hchain i j hlt⟩

theorem adjacency_count_eq (E : List PipelineEdge) (c v : String) :
    (adjacency E c).count v = edgeCount E c v := adjacency_count E c v

theorem remCount_split (E : List PipelineEdge) (ord : List String) (c v : String)
    (hc : c ∉ ord) :
    remCount E ord v = remCount E (ord ++ [c]) v + edgeCount E c v := by
  rw [remCount, countP_and_split E (fun e => e.toId == v && !(ord.contains e.fromId))
      (fun e => e.fromId == c)]
  have h1 : E.countP (fun e => (e.toId == v && !(ord.contains e.fromId)) && e.fromId == c)
      = edgeCount E c v := by
    apply List.countP_congr
    intro e _
    by_cases h2 : e.fromId = c
    · simp [h2, hc]
    · simp [h2]
  have h2 : E.countP (fun e => (e.toId == v && !(ord.contains e.fromId)) && !(e.fromId == c))
      = remCount E (ord ++ [c]) v := by
    apply List.countP_congr
    intro e _
    by_cases h3 : e.fromId = c
    · simp [h3]
    · by_cases h4 : e.fromId ∈ ord <;> simp [h3, h4]
  rw [h1, h2]
  omega

theorem KahnInv.inc_nonneg {V : List String} {E : List PipelineEdge}
    {inc : String → Int} {q ord : List String}
    (h : KahnInv V E inc q ord) (v : String) : 0 ≤ inc v := by
  rw [h.inc_eq v]
  exact Int.ofNat_nonneg _

theorem KahnInv.mem_ord_inc_zero {V : List String} {E : List PipelineEdge}
    {inc : String → Int} {q ord : List String}
    (h : KahnInv V E inc q ord) (v : String) (hv : v ∈ ord) : inc v = 0 := by
  rw [h.inc_eq v]
  have hz : remCount E ord v = 0 := by
    rw [remCount, List.countP_eq_zero]
    intro e he
    simp only [Bool.and_eq_true, beq_iff_eq, Bool.not_eq_true', not_and]
    intro hto hcontains
    obtain ⟨i, j, hij, hi, hj⟩ := h.prec e he (by rw [hto]; exact hv)
    have hmem : e.fromId ∈ ord := List.mem_iff_getElem?.mpr ⟨i, hi⟩
    have hct : ord.contains e.fromId = true := List.elem_iff.mpr hmem
    rw [hct] at hcontains
    cases hcontains
  rw [hz]
  rfl

theorem remCount_pos_elim (E : List PipelineEdge) (ord : List String) (v : String)
    (h : 0 < remCount E ord v) :
    ∃ e ∈ E, e.toId = v ∧ e.fromId ∉ ord := by
  obtain ⟨e, he, hpe⟩ := List.countP_pos_iff.mp h
  simp only [Bool.and_eq_true, beq_iff_eq, Bool.not_eq_true'] at hpe
  refine ⟨e, he, hpe.1, fun hmem => ?_⟩
  have hct : ord.contains e.fromId = true := List.elem_iff.mpr hmem
  rw [hct] at hpe
  cases hpe.2

theorem remCount_zero_elim (E : List PipelineEdge) (ord : List String) (v : String)
    (h : remCount E ord v = 0) (e : PipelineEdge) (he : e ∈ E) (hto : e.toId = v) :
    e.fromId ∈ ord := by
  rw [remCount, List.countP_eq_zero] at h
  have := h e he
  simp only [Bool.and_eq_true, beq_iff_eq, Bool.not_eq_true', not_and] at this
  by_contra hmem
  have hcf : ord.contains e.fromId = false := by
    cases hc : ord.contains e.fromId
    · rfl
    · exact absurd (List.elem_iff.mp hc) hmem
  exact this hto hcf

/-- One iteration of the while-loop (popping a non-empty id `c`) preserves
the invariant. -/
theorem kahnInv_step (V : List String) (E : List PipelineEdge) (inc : String → Int)
    (c : String) (rest ord : List String)
    (hclosed : ∀ e ∈ E, e.fromId ∈ V ∧ e.toId ∈ V)
    (hinv : KahnInv V E inc (c :: rest) ord) :
    KahnInv V E (processNeighbors (adjacency E c) inc rest).1
      (processNeighbors (adjacency E c) inc rest).2 (ord ++ [c]) := by
  have hcq : c ∈ c :: rest := List.mem_cons_self c rest
  have hcV : c ∈ V := hinv.q_sub c hcq
  obtain ⟨hc0, hcord⟩ := (hinv.q_iff c hcV).mp hcq
  have hrest_nodup : rest.Nodup := (List.nodup_cons.mp hinv.q_nodup).2
  have hcrest : c ∉ rest := (List.nodup_cons.mp hinv.q_nodup).1
  obtain ⟨ext, hsnd, hextnd, hextmem⟩ := processNeighbors_snd (adjacency E c) inc rest
  have hfst : ∀ v, (processNeighbors (adjacency E c) inc rest).1 v
      = inc v - ((adjacency E c).count v : Int) :=
    fun v => processNeighbors_fst _ inc rest v
  have hsplit : ∀ v, remCount E ord v = remCount E (ord ++ [c]) v + edgeCount E c v :=
    fun v => remCount_split E ord c v hcord
  have hinc' : ∀ v, (processNeighbors (adjacency E c) inc rest).1 v
      = (remCount E (ord ++ [c]) v : Int) := by
    intro v
    rw [hfst v, hinv.inc_eq v, adjacency_count_eq, hsplit v]
    push_cast
    ring
  have hext_pos : ∀ v ∈ ext, 1 ≤ inc v := fun v hv => ((hextmem v).mp hv).1
  have hext_V : ∀ v ∈ ext, v ∈ V := by
    intro v hv
    have h1 : 1 ≤ inc v := hext_pos v hv
    rw [hinv.inc_eq v] at h1
    have h2 : 0 < remCount E ord v := by exact_mod_cast h1
    obtain ⟨e, he, hto, _⟩ := remCount_pos_elim E ord v h2
    exact hto ▸ (hclosed e he).2
  have hext_notord : ∀ v ∈ ext, v ∉ ord := by
    intro v hv hvord
    have h1 := hext_pos v hv
    have h2 := hinv.mem_ord_inc_zero v hvord
    omega
  have hext_ne_c : ∀ v ∈ ext, v ≠ c := by
    intro v hv hvc
    have h1 := hext_pos v hv
    rw [hvc] at h1
    omega
  have hext_notrest : ∀ v ∈ ext, v ∉ rest := by
    intro v hv hvrest
    have hvV := hext_V v hv
    have h2 := (hinv.q_iff v hvV).mp (List.mem_cons_of_mem c hvrest)
    have h1 := hext_pos v hv
    omega
  have hrest_V : ∀ v ∈ rest, v ∈ V :=
    fun v hv => hinv.q_sub v (List.mem_cons_of_mem c hv)
  have hrest_zero : ∀ v ∈ rest, inc v = 0 ∧ v ∉ ord :=
    fun v hv => (hinv.q_iff v (hrest_V v hv)).mp (List.mem_cons_of_mem c hv)
  rw [hsnd]
  refine ⟨?_, ?_, ?_, ?_, ?_, ?_, ?_, ?_⟩
  · -- (ord ++ [c]).Nodup
    refine hinv.ord_nodup.append (List.nodup_singleton c) ?_
    intro a ha hac
    rw [List.mem_singleton] at hac
    exact hcord (hac ▸ ha)
  · -- (rest ++ ext).Nodup
    refine hrest_nodup.append hextnd ?_
    intro a ha hae
    exact hext_notrest a hae ha
  · -- disjointness of new order and new queue
    intro v hv
    rw [List.mem_append] at hv
    rw [List.mem_append]
    rcases hv with hv | hv
    · push_neg
      constructor
      · intro hr
        exact hinv.disj v hv (List.mem_cons_of_mem c hr)
      · intro he
        exact hext_notord v he hv
    · rw [List.mem_singleton] at hv
      subst hv
      push_neg
      exact ⟨hcrest, fun he => hext_ne_c v he rfl⟩
  · -- new order inside V
    intro v hv
    rw [List.mem_append] at hv
    rcases hv with hv | hv
    · exact hinv.ord_sub v hv
    · rw [List.mem_singleton] at hv
      exact hv ▸ hcV
  · -- new queue inside V
    intro v hv
    rw [List.mem_append] at hv
    rcases hv with hv | hv
    · exact hrest_V v hv
    · exact hext_V v hv
  · exact hinc'
  · -- queue characterization
    intro v hvV
    rw [List.mem_append, hinc' v]
    constructor
    · intro hv
      rcases hv with hv | hv
      · obtain ⟨hz, hnord⟩ := hrest_zero v hv
        have hv_ne_c : v ≠ c := fun h => hcrest (h ▸ hv)
        have hzero : remCount E (ord ++ [c]) v = 0 := by
          have := hinv.inc_eq v
          have := hsplit v
          omega
        refine ⟨by exact_mod_cast hzero, ?_⟩
        rw [List.mem_append, List.mem_singleton]
        push_neg
        exact ⟨hnord, hv_ne_c⟩
      · obtain ⟨h1, h2⟩ := (hextmem v).mp hv
        rw [adjacency_count_eq] at h2
        have h3 := hinv.inc_eq v
        have h4 := hsplit v
        have hzero : remCount E (ord ++ [c]) v = 0 := by omega
        refine ⟨by exact_mod_cast hzero, ?_⟩
        rw [List.mem_append, List.mem_singleton]
        push_neg
        exact ⟨hext_notord v hv, hext_ne_c v hv⟩
    · intro ⟨hz, hnord⟩
      rw [List.mem_append, List.mem_singleton] at hnord
      push_neg at hnord
      obtain ⟨hnord, hne⟩ := hnord
      have hz' : remCount E (ord ++ [c]) v = 0 := by exact_mod_cast hz
      have h3 := hinv.inc_eq v
      have h4 := hsplit v
      by_cases h0 : inc v = 0
      · left
        have := (hinv.q_iff v hvV).mpr ⟨h0, hnord⟩
        rcases List.mem_cons.mp this with h | h
        · exact absurd h hne
        · exact h
      · right
        have hpos : 1 ≤ inc v := by
          have := hinv.inc_nonneg v
          omega
        refine (hextmem v).mpr ⟨hpos, ?_⟩
        rw [adjacency_count_eq]
        omega
  · -- precedence
    intro e he hto
    rw [List.mem_append, List.mem_singleton] at hto
    rcases hto with hto | hto
    · obtain ⟨i, j, hij, hi, hj⟩ := hinv.prec e he hto
      have hjlen : j < ord.length := by
        by_contra hcon
        rw [List.getElem?_eq_none (Nat.le_of_not_lt hcon)] at hj
        cases hj
      have hilen : i < ord.length := Nat.lt_trans hij hjlen
      exact ⟨i, j, hij, by rw [List.getElem?_append_left hilen]; exact hi,
        by rw [List.getElem?_append_left hjlen]; exact hj⟩
    · have hzero : remCount E ord c = 0 := by
        have := hinv.inc_eq c
        omega
      have hfrom : e.fromId ∈ ord := remCount_zero_elim E ord c hzero e he hto
      obtain ⟨i, hi⟩ := List.mem_iff_getElem?.mp hfrom
      have hilen : i < ord.length := by
        by_contra hcon
        rw [List.getElem?_eq_none (Nat.le_of_not_lt hcon)] at hi
        cases hi
      refine ⟨i, ord.length, hilen, by rw [List.getElem?_append_left hilen]; exact hi, ?_⟩
      rw [hto, List.getElem?_concat_length]

/-- The invariant holds when the loop starts. -/
theorem kahnInv_init (V : List String) (E : List PipelineEdge) (hnodupV : V.Nodup) :
    KahnInv V E (initialIncoming E)
      (V.filter (fun id => initialIncoming E id = 0)) [] := by
  refine ⟨List.nodup_nil, hnodupV.filter _, ?_, ?_, ?_, ?_, ?_, ?_⟩
  · intro v hv; cases hv
  · intro v hv; cases hv
  · intro v hv; exact (List.mem_filter.mp hv).1
  · intro v
    rw [initialIncoming_eq]
    congr 1
    rw [remCount]
    apply List.countP_congr
    intro e _
    simp
  · intro v hvV
    rw [List.mem_filter]
    simp [hvV]
  · intro e he hto; cases hto

/-- With enough fuel and the invariant, the while-loop emits a permutation
of the declared ids that respects every edge, provided ids are distinct and
nonempty, edges stay inside the declared ids, and the edge relation is
acyclic. -/
theorem kahnLoop_spec (V : List String) (E : List PipelineEdge)
    (hnodupV : V.Nodup) (hVne : "" ∉ V)
    (hclosed : ∀ e ∈ E, e.fromId ∈ V ∧ e.toId ∈ V)
    (hacyc : ∀ v, ¬ Relation.TransGen (edgeRel E) v v) :
    ∀ (fuel : Nat) (inc : String → Int) (q ord : List String),
      KahnInv V E inc q ord → V.length - ord.length < fuel →
      (kahnLoop (adjacency E) fuel inc q ord).Perm V ∧
      ∀ e ∈ E, ∃ i j : Nat, i < j ∧
        (kahnLoop (adjacency E) fuel inc q ord)[i]? = some e.fromId ∧
        (kahnLoop (adjacency E) fuel inc q ord)[j]? = some e.toId := by
  intro fuel
  induction fuel with
  | zero =>
    intro inc q ord _ hf
    exact absurd hf (by omega)
  | succ fuel ih =>
    intro inc q ord hinv hf
    match q with
    | [] =>
      have hres : kahnLoop (adjacency E) (fuel + 1) inc [] ord = ord := rfl
      rw [hres]
      have hall : ∀ v ∈ V, v ∈ ord := by
        classical
        by_contra hcon
        push_neg at hcon
        obtain ⟨v0, hv0V, hv0ord⟩ := hcon
        set S : Finset String := V.toFinset.filter (fun v => v ∉ ord) with hS
        have hSmem : ∀ v, v ∈ S ↔ v ∈ V ∧ v ∉ ord := by
          intro v
          rw [hS, Finset.mem_filter, List.mem_toFinset]
        have hSne : S.Nonempty := ⟨v0, (hSmem v0).mpr ⟨hv0V, hv0ord⟩⟩
        have hpred : ∀ b ∈ S, ∃ a ∈ S, edgeRel E a b := by
          intro b hb
          obtain ⟨hbV, hbord⟩ := (hSmem b).mp hb
          have hincne : ¬ (inc b = 0 ∧ b ∉ ord) := by
            intro hc
            have hfalse : b ∈ ([] : List String) := (hinv.q_iff b hbV).mpr hc
            cases hfalse
          have hincnz : inc b ≠ 0 := fun h => hincne ⟨h, hbord⟩
          have hpos : 0 < remCount E ord b := by
            have h1 := hinv.inc_eq b
            have h2 := hinv.inc_nonneg b
            omega
          obtain ⟨e, he, hto, hfrom⟩ := remCount_pos_elim E ord b hpos
          refine ⟨e.fromId, (hSmem e.fromId).mpr ⟨(hclosed e he).1, hfrom⟩, e, he, rfl, hto⟩
        obtain ⟨w, hw⟩ := exists_transGen_cycle (edgeRel E) S hSne hpred
        exact hacyc w hw
      constructor
      · exact (List.perm_ext_iff_of_nodup hinv.ord_nodup hnodupV).mpr
          (fun a => ⟨fun h => hinv.ord_sub a h, fun h => hall a h⟩)
      · intro e he
        exact hinv.prec e he (hall e.toId (hclosed e he).2)
    | c :: rest =>
      have hcV : c ∈ V := hinv.q_sub c (List.mem_cons_self c rest)
      have hcne : c ≠ "" := fun h => hVne (h ▸ hcV)
      have hres : kahnLoop (adjacency E) (fuel + 1) inc (c :: rest) ord
          = kahnLoop (adjacency E) fuel (processNeighbors (adjacency E c) inc rest).1
              (processNeighbors (adjacency E c) inc rest).2 (ord ++ [c]) := by
        simp only [kahnLoop]
        rw [if_neg hcne]
      rw [hres]
      have hstep := kahnInv_step V E inc c rest ord hclosed hinv
      have happnd : (ord ++ c :: rest).Nodup := by
        refine hinv.ord_nodup.append hinv.q_nodup ?_
        intro a ha hax
        exact hinv.disj a ha hax
      have hsub : (ord ++ c :: rest) ⊆ V := by
        intro a ha
        rcases List.mem_append.mp ha with h | h
        · exact hinv.ord_sub a h
        · exact hinv.q_sub a h
      have hlenle : (ord ++ c :: rest).length ≤ V.length :=
        (happnd.subperm hsub).length_le
      have hlen : ord.length + 1 ≤ V.length := by
        rw [List.length_append, List.length_cons] at hlenle
        omega
      have hf' : V.length - (ord ++ [c]).length < fuel := by
        rw [List.length_append, List.length_singleton]
        omega
      exact ih _ _ _ hstep hf'

theorem buildExecutionOrder_spec (p : PipelineDefinition)
    (hnodup : (p.nodes.map (fun n => n.id)).Nodup)
    (hne : ∀ n ∈ p.nodes, n.id ≠ "")
    (hclosed : ∀ e ∈ p.edges, e.fromId ∈ p.nodes.map (fun n => n.id) ∧
      e.toId ∈ p.nodes.map (fun n => n.id))
    (hacyc : ∀ v, ¬ Relation.TransGen (edgeRel p.edges) v v) :
    (buildExecutionOrder p).Perm (p.nodes.map (fun n => n.id)) ∧
    ∀ e ∈ p.edges, ∃ i j : Nat, i < j ∧
      (buildExecutionOrder p)[i]? = some e.fromId ∧
      (buildExecutionOrder p)[j]? = some e.toId := by
  by_cases hE : p.edges.isEmpty
  · have hres : buildExecutionOrder p = p.nodes.map (fun n => n.id) := by
      rw [buildExecutionOrder, if_pos hE]
    rw [hres]
    refine ⟨List.Perm.refl _, ?_⟩
    intro e he
    rw [List.isEmpty_iff] at hE
    rw [hE] at he
    cases he
  · have hVne : "" ∉ p.nodes.map (fun n => n.id) := by
      intro hmem
      rw [List.mem_map] at hmem
      obtain ⟨n, hn, hid⟩ := hmem
      exact hne n hn hid
    have hinit := kahnInv_init (p.nodes.map (fun n => n.id)) p.edges hnodup
    have hfuel : (p.nodes.map (fun n => n.id)).length - ([] : List String).length
        < kahnFuel p := by
      rw [kahnFuel, List.length_map]
      simp
      omega
    obtain ⟨hperm, hprec⟩ := kahnLoop_spec (p.nodes.map (fun n => n.id)) p.edges
      hnodup hVne hclosed hacyc (kahnFuel p) (initialIncoming p.edges)
      ((p.nodes.map (fun n => n.id)).filter (fun id => initialIncoming p.edges id = 0))
      [] hinit hfuel
    have hlen : (kahnLoop (adjacency p.edges) (kahnFuel p) (initialIncoming p.edges)
        ((p.nodes.map (fun n => n.id)).filter (fun id => initialIncoming p.edges id = 0))
        []).length = p.nodes.length := by
      rw [hperm.length_eq, List.length_map]
    have horder : buildExecutionOrder p = kahnLoop (adjacency p.edges) (kahnFuel p)
        (initialIncoming p.edges)
        ((p.nodes.map (fun n => n.id)).filter (fun id => initialIncoming p.edges id = 0))
        [] := by
      rw [buildExecutionOrder, if_neg hE]
      simp only [hlen]
      rw [if_neg (by omega)]
    rw [horder]
    exact ⟨hperm, hprec⟩

/-- A rank function whose value strictly increases along every edge
certifies acyclicity. -/
theorem acyclic_of_rank (E : List PipelineEdge) (f : String → Nat)
    (h : ∀ e ∈ E, f e.fromId < f e.toId) :
    ∀ v, ¬ Relation.TransGen (edgeRel E) v v := by
  have hmono : ∀ a b, Relation.TransGen (edgeRel E) a b → f a < f b := by
    intro a b hab
    induction hab with
    | single h1 =>
      obtain ⟨e, he, hf, ht⟩ := h1
      rw [← hf, ← ht]
      exact h e he
    | tail _ h1 ih =>
      obtain ⟨e, he, hf, ht⟩ := h1
      rw [← ht]
      exact lt_trans ih (hf ▸ h e he)
  intro v hv
  exact lt_irrefl _ (hmono v v hv)

/-- **C1** (corrected).  For every pipeline whose node ids are distinct and
nonempty and whose edges form a DAG over the declared nodes (`edgeRel` has
no cycle and every endpoint is declared), `buildExecutionOrder` returns a
permutation of the declared ids — every declared node exactly once — in
which, for every edge `(a, b)`, `a` occupies an earlier position than `b`.
(The queue seeding in declaration order and its FIFO discipline are part of
the definition of `buildExecutionOrder` itself.)  The original claim fails
when a declared node id is the empty string, see the counterexample. -/
theorem claim_C1_scheduler_topological_order (p : PipelineDefinition)
    (hnodup : (p.nodes.map (fun n => n.id)).Nodup)
    (hne : ∀ n ∈ p.nodes, n.id ≠ "")
    (hclosed : ∀ e ∈ p.edges, e.fromId ∈ p.nodes.map (fun n => n.id) ∧
      e.toId ∈ p.nodes.map (fun n => n.id))
    (hacyc : ∀ v, ¬ Relation.TransGen (edgeRel p.edges) v v) :
    (buildExecutionOrder p).Perm (p.nodes.map (fun n => n.id)) ∧
    (∀ n ∈ p.nodes, (buildExecutionOrder p).count n.id = 1) ∧
    ∀ e ∈ p.edges, ∃ i j : Nat, i < j ∧
      (buildExecutionOrder p)[i]? = some e.fromId ∧
      (buildExecutionOrder p)[j]? = some e.toId := by
  obtain ⟨hperm, hprec⟩ := buildExecutionOrder_spec p hnodup hne hclosed hacyc
  refine ⟨hperm, ?_, hprec⟩
  intro n hn
  rw [hperm.count_eq]
  exact List.count_eq_one_of_mem hnodup (List.mem_map_of_mem (fun n => n.id) hn)

/-- Witness for C1: the DAG scenario `[C, A, B]` with edges `A→B`, `B→C`. -/
theorem claim_C1_scheduler_topological_order_witness :
    (buildExecutionOrder demoDagPipeline).Perm
      (demoDagPipeline.nodes.map (fun n => n.id)) ∧
    (∀ n ∈ demoDagPipeline.nodes, (buildExecutionOrder demoDagPipeline).count n.id = 1) ∧
    ∀ e ∈ demoDagPipeline.edges, ∃ i j : Nat, i < j ∧
      (buildExecutionOrder demoDagPipeline)[i]? = some e.fromId ∧
      (buildExecutionOrder demoDagPipeline)[j]? = some e.toId :=
  claim_C1_scheduler_topological_order demoDagPipeline (by decide) (by decide)
    (by decide)
    (acyclic_of_rank _ (fun s => if s = "A" then 0 else if s = "B" then 1 else 2)
      (by decide))

/-- Counterexample to C1 as stated: `emptyIdPipeline` is a DAG over its two
declared nodes (ids `"b"` and `""`, edge `"" → "b"`), yet the scheduler
emits `["b", ""]`, so the source `""` of the edge does not precede its
target `"b"`: the `if (!current) continue` test drops the falsy empty-string
id from the Kahn loop and the fallback appends it last. -/
theorem claim_C1_scheduler_counterexample :
    (emptyIdPipeline.nodes.map (fun n => n.id)).Nodup ∧
    (∀ e ∈ emptyIdPipeline.edges,
      e.fromId ∈ emptyIdPipeline.nodes.map (fun n => n.id) ∧
      e.toId ∈ emptyIdPipeline.nodes.map (fun n => n.id)) ∧
    (∀ v, ¬ Relation.TransGen (edgeRel emptyIdPipeline.edges) v v) ∧
    buildExecutionOrder emptyIdPipeline = ["b", ""] ∧
    ¬ ∃ i j : Nat, i < j ∧
      (buildExecutionOrder emptyIdPipeline)[i]? = some "" ∧
      (buildExecutionOrder emptyIdPipeline)[j]? = some "b" := by
  have horder : buildExecutionOrder emptyIdPipeline = ["b", ""] := by rfl
  refine ⟨by decide, by decide,
    acyclic_of_rank _ (fun s => if s = "" then 0 else 1) (by decide), horder, ?_⟩
  rw [horder]
  rintro ⟨i, j, hij, hi, hj⟩
  have hi1 : i = 1 := by
    match i with
    | 0 => simp at hi
    | 1 => rfl
    | n + 2 => simp at hi
  have hj0 : j = 0 := by
    match j with
    | 0 => rfl
    | 1 => simp at hj
    | n + 2 => simp at hj
  omega

/-- **C2** (code bug).  The spec promises that the scheduler always returns
every declared node exactly once, even on malformed graphs.  On
`cycleDanglingPipeline` (self-loop `b→b` plus dangling edge `a→x` with `x`
undeclared) the loop emits `["a", "x"]`; the fallback's length test
`order.length !== nodes.length` compares 2 with 2 and never fires, so the
declared node `"b"` is dropped entirely. -/
theorem claim_C2_scheduler_drops_declared_node :
    buildExecutionOrder cycleDanglingPipeline = ["a", "x"] ∧
    "b" ∈ cycleDanglingPipeline.nodes.map (fun n => n.id) ∧
    (buildExecutionOrder cycleDanglingPipeline).count "b" = 0 := by
  refine ⟨by rfl, by decide, by rfl⟩

/-! ### Lemmas about the interpolation scan -/

theorem findCloseBrace_sound :
    ∀ (cs tok rest : List Char), findCloseBrace cs = some (tok, rest) →
      cs = tok ++ closeBraceChar :: rest := by
  intro cs
  induction cs with
  | nil => intro tok rest h; simp [findCloseBrace] at h
  | cons c cs ih =>
    intro tok rest h
    rw [findCloseBrace] at h
    by_cases hc : c = closeBraceChar
    · rw [if_pos hc] at h
      simp only [Option.some.injEq, Prod.mk.injEq] at h
      obtain ⟨h1, h2⟩ := h
      rw [← h1, ← h2, hc]
      rfl
    · rw [if_neg hc] at h
      by_cases hl : isLineTerminator c = true
      · rw [if_pos hl] at h; cases h
      · rw [if_neg hl] at h
        cases hfc : findCloseBrace cs with
        | none => rw [hfc] at h; cases h
        | some pr =>
          obtain ⟨tok', rest'⟩ := pr
          rw [hfc] at h
          simp only [Option.some.injEq, Prod.mk.injEq] at h
          obtain ⟨h1, h2⟩ := h
          rw [← h1, ← h2, List.cons_append]
          exact congrArg (c :: ·) (ih tok' rest' hfc)

theorem findCloseBrace_length (cs tok rest : List Char)
    (h : findCloseBrace cs = some (tok, rest)) : rest.length < cs.length := by
  have hs := findCloseBrace_sound cs tok rest h
  rw [hs, List.length_append, List.length_cons]
  omega

theorem findCloseBrace_token :
    ∀ (t : List Char), (∀ c ∈ t, c ≠ closeBraceChar ∧ isLineTerminator c = false) →
    ∀ (r : List Char), findCloseBrace (t ++ closeBraceChar :: r) = some (t, r) := by
  intro t
  induction t with
  | nil =>
    intro _ r
    rw [List.nil_append, findCloseBrace, if_pos rfl]
  | cons c t ih =>
    intro ht r
    have hc := ht c (List.mem_cons_self c t)
    rw [List.cons_append, findCloseBrace, if_neg hc.1, if_neg (by rw [hc.2]; exact Bool.false_ne_true)]
    rw [ih (fun c hc => ht c (List.mem_cons_of_mem _ hc)) r]

theorem interpolateGo_nil (fmt : Real → String) (st : PipelineState) (fuel : Nat) :
    interpolateGo fmt st fuel [] = [] := by
  cases fuel <;> rfl

theorem interpolateGo_fuel (fmt : Real → String) (st : PipelineState) :
    ∀ (n : Nat) (cs : List Char) (f1 f2 : Nat), cs.length ≤ n →
      cs.length ≤ f1 → cs.length ≤ f2 →
      interpolateGo fmt st f1 cs = interpolateGo fmt st f2 cs := by
  intro n
  induction n with
  | zero =>
    intro cs f1 f2 hn _ _
    have : cs = [] := List.length_eq_zero.mp (by omega)
    rw [this, interpolateGo_nil, interpolateGo_nil]
  | succ n ih =>
    intro cs f1 f2 hn h1 h2
    match cs with
    | [] => rw [interpolateGo_nil, interpolateGo_nil]
    | c :: cs =>
      rw [List.length_cons] at hn h1 h2
      match f1, f2 with
      | f1 + 1, f2 + 1 =>
        simp only [interpolateGo]
        by_cases hc : c = openBraceChar
        · rw [if_pos hc, if_pos hc]
          cases hfc : findCloseBrace cs with
          | none =>
            dsimp only
            rw [ih cs f1 f2 (by omega) (by omega) (by omega)]
          | some pr =>
            obtain ⟨tok, rest⟩ := pr
            have hlen := findCloseBrace_length cs tok rest hfc
            dsimp only
            rw [ih rest f1 f2 (by omega) (by omega) (by omega)]
        · rw [if_neg hc, if_neg hc]
          rw [ih cs f1 f2 (by omega) (by omega) (by omega)]

theorem interpolateGo_split (fmt : Real → String) (st : PipelineState) :
    ∀ (p : List Char), (∀ c ∈ p, c ≠ openBraceChar) →
    ∀ (t : List Char), (∀ c ∈ t, c ≠ closeBraceChar ∧ isLineTerminator c = false) →
    ∀ (r : List Char) (fuel : Nat),
      (p ++ openBraceChar :: (t ++ closeBraceChar :: r)).length ≤ fuel →
      interpolateGo fmt st fuel (p ++ openBraceChar :: (t ++ closeBraceChar :: r))
        = p ++ ((resolveTemplateToken fmt (jsTrim (String.mk t)) st).data
            ++ interpolateGo fmt st r.length r) := by
  intro p
  induction p with
  | nil =>
    intro _ t ht r fuel hfuel
    simp only [List.nil_append] at hfuel ⊢
    rw [List.length_cons, List.length_append, List.length_cons] at hfuel
    match fuel with
    | f + 1 =>
      simp only [interpolateGo]
      rw [if_pos trivial, findCloseBrace_token t ht r]
      dsimp only
      rw [interpolateGo_fuel fmt st f r f r.length (by omega) (by omega) (by omega)]
  | cons c p ih =>
    intro hp t ht r fuel hfuel
    rw [List.cons_append] at hfuel ⊢
    rw [List.length_cons] at hfuel
    match fuel with
    | f + 1 =>
      simp only [interpolateGo]
      rw [if_neg (hp c (List.mem_cons_self c p))]
      rw [ih (fun x hx => hp x (List.mem_cons_of_mem _ hx)) t ht r f (by omega)]
      rfl

theorem resolveTemplateToken_input (fmt : Real → String) (st : PipelineState)
    (t : String) (h : jsToLower t = "input") :
    resolveTemplateToken fmt t st = st.input := by
  have hne : t ≠ "" := by
    intro he
    rw [he] at h
    exact absurd h (by decide)
  unfold resolveTemplateToken
  rw [if_neg hne, h]
  rfl

theorem resolveTemplateToken_context (fmt : Real → String) (st : PipelineState)
    (t : String) (h : jsToLower t = "context") :
    resolveTemplateToken fmt t st = st.context.getD "" := by
  have hne : t ≠ "" := by
    intro he
    rw [he] at h
    exact absurd h (by decide)
  unfold resolveTemplateToken
  rw [if_neg hne, h]
  rfl

theorem resolveTemplateToken_intent (fmt : Real → String) (st : PipelineState)
    (t : String) (h : jsToLower t = "intent") :
    resolveTemplateToken fmt t st = st.intent.getD "" := by
  have hne : t ≠ "" := by
    intro he
    rw [he] at h
    exact absurd h (by decide)
  unfold resolveTemplateToken
  rw [if_neg hne, h]
  rfl

theorem resolveTemplateToken_lastOutput (fmt : Real → String) (st : PipelineState)
    (t : String) (h : jsToLower t = "last_output") :
    resolveTemplateToken fmt t st = st.lastOutput.getD "" := by
  have hne : t ≠ "" := by
    intro he
    rw [he] at h
    exact absurd h (by decide)
  unfold resolveTemplateToken
  rw [if_neg hne, h]
  rfl

theorem resolveTemplateToken_var (fmt : Real → String) (st : PipelineState)
    (t : String) (hne : t ≠ "")
    (h1 : jsToLower t ≠ "input") (h2 : jsToLower t ≠ "context")
    (h3 : jsToLower t ≠ "intent") (h4 : jsToLower t ≠ "last_output") :
    resolveTemplateToken fmt t st =
      (match (match st.vars t with
              | none => st.vars (jsToLower t)
              | some .null => st.vars (jsToLower t)
              | some v => some v) with
       | none => ""
       | some .null => ""
       | some v => jsDisplayValue fmt v) := by
  unfold resolveTemplateToken
  rw [if_neg hne, if_neg h1, if_neg h2, if_neg h3, if_neg h4]

/-- The interpolation lemma at the `String` level: any match of the
template regex is replaced by the resolution of its trimmed token, and
scanning continues after the closing brace. -/
theorem interpolatePrompt_split (fmt : Real → String) (st : PipelineState)
    (p t r : String) (hp : ∀ c ∈ p.data, c ≠ openBraceChar)
    (ht : ∀ c ∈ t.data, c ≠ closeBraceChar ∧ isLineTerminator c = false) :
    interpolatePrompt fmt (p ++ "\x7b" ++ t ++ "\x7d" ++ r) st
      = p ++ resolveTemplateToken fmt (jsTrim t) st ++ interpolatePrompt fmt r st := by
  have hoc : openBraceChar = '{' := by decide
  have hcc : closeBraceChar = '}' := by decide
  have hdata : (p ++ "\x7b" ++ t ++ "\x7d" ++ r).data
      = p.data ++ openBraceChar :: (t.data ++ closeBraceChar :: r.data) := by
    simp [String.data_append, hoc, hcc]
  apply String.ext
  rw [interpolatePrompt, hdata]
  rw [interpolateGo_split fmt st p.data hp t.data ht r.data _ (le_refl _)]
  simp [String.data_append, interpolatePrompt]

/-- **C3** (corrected).  `interpolatePrompt` is total by construction and
replaces every `{token}` occurrence with the resolution of the *trimmed*
token: reserved tokens (matched case-insensitively) resolve to the
corresponding state field with empty string for an unset field; any other
*nonempty* token is looked up in `state.variables` first by exact key then
by lowercased key, `undefined`/`null` resolving to the empty string, string
values passing through unchanged, objects and arrays serializing to JSON
text, and other scalars to their textual form.  A token that is empty after
trimming resolves to the empty string *without* consulting `variables`
(the `if (!token)` short-circuit) — see the counterexample. -/
theorem claim_C3_interpolation_resolution (fmt : Real → String) (st : PipelineState) :
    (∀ p t r : String, (∀ c ∈ p.data, c ≠ openBraceChar) →
      (∀ c ∈ t.data, c ≠ closeBraceChar ∧ isLineTerminator c = false) →
      interpolatePrompt fmt (p ++ "\x7b" ++ t ++ "\x7d" ++ r) st
        = p ++ resolveTemplateToken fmt (jsTrim t) st ++ interpolatePrompt fmt r st) ∧
    (∀ t, jsToLower t = "input" → resolveTemplateToken fmt t st = st.input) ∧
    (∀ t, jsToLower t = "context" →
      resolveTemplateToken fmt t st = st.context.getD "") ∧
    (∀ t, jsToLower t = "intent" →
      resolveTemplateToken fmt t st = st.intent.getD "") ∧
    (∀ t, jsToLower t = "last_output" →
      resolveTemplateToken fmt t st = st.lastOutput.getD "") ∧
    (∀ t, t ≠ "" →
      jsToLower t ∉ (["input", "context", "intent", "last_output"] : List String) →
      (∀ v, st.vars t = some v → v ≠ JsValue.null →
        resolveTemplateToken fmt t st = jsDisplayValue fmt v) ∧
      ((st.vars t = none ∨ st.vars t = some JsValue.null) →
        (∀ v, st.vars (jsToLower t) = some v → v ≠ JsValue.null →
          resolveTemplateToken fmt t st = jsDisplayValue fmt v) ∧
        ((st.vars (jsToLower t) = none ∨ st.vars (jsToLower t) = some JsValue.null) →
          resolveTemplateToken fmt t st = ""))) ∧
    (∀ s, jsDisplayValue fmt (JsValue.str s) = s) ∧
    (∀ fields, jsDisplayValue fmt (JsValue.obj fields)
      = serializeJsValue fmt (JsValue.obj fields)) ∧
    (∀ elems, jsDisplayValue fmt (JsValue.arr elems)
      = serializeJsValue fmt (JsValue.arr elems)) ∧
    (∀ x, jsDisplayValue fmt (JsValue.num x) = fmt x) ∧
    (∀ b, jsDisplayValue fmt (JsValue.bool b) = if b then "true" else "false") := by
  refine ⟨interpolatePrompt_split fmt st,
    resolveTemplateToken_input fmt st,
    resolveTemplateToken_context fmt st,
    resolveTemplateToken_intent fmt st,
    resolveTemplateToken_lastOutput fmt st,
    ?_, fun _ => rfl, fun _ => rfl, fun _ => rfl, fun _ => rfl, fun _ => rfl⟩
  intro t hne hres
  simp only [List.mem_cons, List.not_mem_nil, or_false, not_or] at hres
  obtain ⟨h1, h2, h3, h4⟩ := hres
  have hbase := resolveTemplateToken_var fmt st t hne h1 h2 h3 h4
  constructor
  · intro v hv hvnull
    rw [hbase, hv]
    match v, hvnull with
    | .str s, _ => rfl
    | .num x, _ => rfl
    | .bool b, _ => rfl
    | .arr elems, _ => rfl
    | .obj fields, _ => rfl
    | .null, h => exact absurd rfl h
  · intro hmiss
    constructor
    · intro v hv hvnull
      rw [hbase]
      rcases hmiss with hm | hm
      · rw [hm, hv]
        match v, hvnull with
        | .str s, _ => rfl
        | .num x, _ => rfl
        | .bool b, _ => rfl
        | .arr elems, _ => rfl
        | .obj fields, _ => rfl
        | .null, h => exact absurd rfl h
      · rw [hm, hv]
        match v, hvnull with
        | .str s, _ => rfl
        | .num x, _ => rfl
        | .bool b, _ => rfl
        | .arr elems, _ => rfl
        | .obj fields, _ => rfl
        | .null, h => exact absurd rfl h
    · intro hmiss2
      rw [hbase]
      rcases hmiss with hm | hm <;> rcases hmiss2 with hm2 | hm2 <;> rw [hm, hm2]

/-- Counterexample to C3 as stated: the claim says any non-reserved token is
looked up in `state.variables` by exact key; but the template `"{}"` (token
`""`, present in `variables` with value `"x"`) interpolates to `""`, and the
template `"{ y }"` (token `" y "`, present with value `"A"`) interpolates to
`"B"` — the code trims the token first and an empty trimmed token
short-circuits before any lookup. -/
theorem claim_C3_interpolation_counterexample :
    interpolatePrompt (fun _ => "") "\x7b\x7d" c3CxState = "" ∧
    c3CxState.vars "" = some (JsValue.str "x") ∧
    ("" : String) ≠ "x" ∧
    interpolatePrompt (fun _ => "") "\x7b y \x7d" c3CxState = "B" ∧
    c3CxState.vars " y " = some (JsValue.str "A") ∧
    ("B" : String) ≠ "A" :=
  ⟨rfl, rfl, by decide, rfl, rfl, by decide⟩

/-- Witness for C3: concrete interpolations through the amended theorem. -/
theorem claim_C3_interpolation_resolution_witness :
    interpolatePrompt (fun _ => "") ("" ++ "\x7b" ++ "INPUT" ++ "\x7d" ++ " world")
      c3WitnessState = "" ++ "hello" ++ " world" ∧
    resolveTemplateToken (fun _ => "") "Context" c3WitnessState = "ctx" ∧
    resolveTemplateToken (fun _ => "") "ANSWER" c3WitnessState = "42" := by
  obtain ⟨hsplit, hinput, hcontext, _, _, hvar, _⟩ :=
    claim_C3_interpolation_resolution (fun _ => "") c3WitnessState
  refine ⟨?_, ?_, ?_⟩
  · rw [hsplit "" "INPUT" " world" (by decide) (by decide)]
    rw [hinput (jsTrim "INPUT") (by rfl)]
    rfl
  · rw [hcontext "Context" (by rfl)]
    rfl
  · have h := (hvar "ANSWER" (by decide) (by decide)).2
    rw [(h (Or.inl rfl)).1 (JsValue.str "42") rfl (by intro h; cases h)]
    rfl

/-! ### Scorer lemmas -/

theorem calculateLexicalScore_tokenless (queryTokens : List String)
    (entry : IndexedKnowledgeEntry) (h : entry.tokens = []) :
    calculateLexicalScore queryTokens entry = 0 := by
  rw [calculateLexicalScore, if_pos (by rw [h]; rfl)]

theorem calculateLexicalScore_zero_overlap (queryTokens : List String)
    (entry : IndexedKnowledgeEntry) (hq : queryTokens ≠ [])
    (hov : queryTokens.countP (fun t => entry.tokens.contains t) = 0) :
    calculateLexicalScore queryTokens entry = 0 := by
  rw [calculateLexicalScore]
  by_cases htok : entry.tokens.isEmpty
  · rw [if_pos htok]
  · rw [if_neg htok]
    simp only
    rw [if_pos ⟨hov, fun hl => hq (List.length_eq_zero.mp hl)⟩]

theorem calculateLexicalScore_formula (queryTokens : List String)
    (entry : IndexedKnowledgeEntry) (htok : entry.tokens ≠ [])
    (h : 0 < queryTokens.countP (fun t => entry.tokens.contains t) ∨ queryTokens = []) :
    calculateLexicalScore queryTokens entry =
      (((queryTokens.countP (fun t => entry.tokens.contains t) : Real)
          + 0.1 * ((entry.tags.getD []).length : Real))
        * (entry.priority.getD (entry.weight.getD 1)))
        / (Real.log ((entry.tokens.length : Real) + 1) + 1) := by
  rw [calculateLexicalScore,
    if_neg (by rw [List.isEmpty_iff]; exact htok)]
  simp only
  rw [if_neg ?_]
  · rfl
  · rintro ⟨h0, hlen⟩
    rcases h with h | h
    · omega
    · exact hlen (by rw [h]; rfl)

theorem scoreKnowledgeEntry_no_embedding (queryTokens : List String)
    (entry : IndexedKnowledgeEntry) :
    scoreKnowledgeEntry queryTokens entry none
      = calculateLexicalScore queryTokens entry := rfl

theorem insertScoredDesc_perm (x : IndexedKnowledgeEntry × Real) :
    ∀ l : List (IndexedKnowledgeEntry × Real), (insertScoredDesc x l).Perm (x :: l) := by
  intro l
  induction l with
  | nil => exact List.Perm.refl _
  | cons y ys ih =>
    rw [insertScoredDesc]
    by_cases h : x.2 < y.2
    · rw [if_pos h]
      exact (ih.cons y).trans (List.Perm.swap x y ys)
    · rw [if_neg h]

theorem sortScoredDesc_perm :
    ∀ l : List (IndexedKnowledgeEntry × Real), (sortScoredDesc l).Perm l := by
  intro l
  induction l with
  | nil => exact List.Perm.refl _
  | cons x xs ih =>
    rw [sortScoredDesc]
    exact (insertScoredDesc_perm x (sortScoredDesc xs)).trans (ih.cons x)

theorem insertScoredDesc_const (c : Real) (x : IndexedKnowledgeEntry × Real)
    (hx : x.2 = c) :
    ∀ l : List (IndexedKnowledgeEntry × Real), (∀ pr ∈ l, pr.2 = c) →
      insertScoredDesc x l = x :: l := by
  intro l hl
  match l with
  | [] => rfl
  | y :: ys =>
    rw [insertScoredDesc, if_neg ?_]
    rw [hx, hl y (List.mem_cons_self y ys)]
    exact lt_irrefl c

theorem sortScoredDesc_const (c : Real) :
    ∀ l : List (IndexedKnowledgeEntry × Real), (∀ pr ∈ l, pr.2 = c) →
      sortScoredDesc l = l := by
  intro l
  induction l with
  | nil => intro _; rfl
  | cons x xs ih =>
    intro hl
    rw [sortScoredDesc, ih (fun pr hpr => hl pr (List.mem_cons_of_mem x hpr))]
    exact insertScoredDesc_const c x (hl x (List.mem_cons_self x xs)) xs
      (fun pr hpr => hl pr (List.mem_cons_of_mem x hpr))

/-- When no entry passes the positivity filter and the query is non-empty,
the ranking degenerates to the no-match fallback (or to the empty list when
the knowledge base itself is empty). -/
theorem rankKnowledgeEntries_no_match (queryTokens : List String)
    (queryEmbedding : Option (List Real)) (kb : List IndexedKnowledgeEntry)
    (topK : Nat) (hq : queryTokens ≠ [])
    (hall : ∀ e ∈ kb, ¬ 0 < scoreKnowledgeEntry queryTokens e queryEmbedding) :
    rankKnowledgeEntries queryTokens queryEmbedding kb topK
      = (kb.map (fun e => (e, (0 : Real)))).take (min topK kb.length) := by
  have hqe : queryTokens.isEmpty = false := by
    cases queryTokens with
    | nil => exact absurd rfl hq
    | cons a l => rfl
  have hfil : ((kb.map (fun entry =>
      (entry, scoreKnowledgeEntry queryTokens entry queryEmbedding))).filter
      (fun pr => 0 < pr.2 ∨ queryTokens.isEmpty)) = [] := by
    rw [List.filter_eq_nil_iff]
    intro pr hpr
    obtain ⟨e, he, hpe⟩ := List.mem_map.mp hpr
    simp only [decide_eq_true_eq, hqe, Bool.false_eq_true, or_false]
    rw [← hpe]
    exact hall e he
  rw [rankKnowledgeEntries]
  simp only [hfil, sortScoredDesc, List.take_nil, List.isEmpty_nil, true_and]
  by_cases hkb : kb.isEmpty
  · rw [if_neg (by simp [hkb])]
    rw [List.isEmpty_iff] at hkb
    simp [hkb]
  · rw [if_pos (by simp [hkb])]

/-- **C4** (corrected).  The lexical score of an entry with a *nonempty*
token set equals `(overlap + 0.1·tagCount) · priority / (ln(tokenCount+1)+1)`
(priority defaulting to weight then 1), except that zero overlap against a
non-empty query scores exactly 0; an entry with an *empty* token set scores
0 outright (the original claim's formula would give `0.1·tagCount·priority`).
A zero-overlap entry is excluded from the ranked result whenever some entry
scores positively; when no entry does, the no-match fallback re-admits it
with score 0 (see the counterexample). -/
theorem claim_C4_lexical_score_formula (queryTokens : List String) :
    (∀ entry : IndexedKnowledgeEntry, entry.tokens = [] →
      calculateLexicalScore queryTokens entry = 0) ∧
    (∀ entry : IndexedKnowledgeEntry, entry.tokens ≠ [] →
      (0 < queryTokens.countP (fun t => entry.tokens.contains t) ∨ queryTokens = []) →
      calculateLexicalScore queryTokens entry =
        (((queryTokens.countP (fun t => entry.tokens.contains t) : Real)
            + 0.1 * ((entry.tags.getD []).length : Real))
          * (entry.priority.getD (entry.weight.getD 1)))
          / (Real.log ((entry.tokens.length : Real) + 1) + 1)) ∧
    (∀ entry : IndexedKnowledgeEntry, queryTokens ≠ [] →
      queryTokens.countP (fun t => entry.tokens.contains t) = 0 →
      calculateLexicalScore queryTokens entry = 0) ∧
    (∀ (kb : List IndexedKnowledgeEntry) (topK : Nat)
      (entry : IndexedKnowledgeEntry) (s : Real), queryTokens ≠ [] →
      queryTokens.countP (fun t => entry.tokens.contains t) = 0 →
      (∃ e' ∈ kb, 0 < scoreKnowledgeEntry queryTokens e' none) →
      (entry, s) ∉ rankKnowledgeEntries queryTokens none kb topK) := by
  refine ⟨fun entry h => calculateLexicalScore_tokenless queryTokens entry h,
    fun entry h1 h2 => calculateLexicalScore_formula queryTokens entry h1 h2,
    fun entry h1 h2 => calculateLexicalScore_zero_overlap queryTokens entry h1 h2,
    ?_⟩
  intro kb topK entry s hq hov ⟨e', he', hpos⟩ hmem
  have hqe : queryTokens.isEmpty = false := by
    cases queryTokens with
    | nil => exact absurd rfl hq
    | cons a l => rfl
  have hscore0 : scoreKnowledgeEntry queryTokens entry none = 0 := by
    rw [scoreKnowledgeEntry_no_embedding]
    exact calculateLexicalScore_zero_overlap queryTokens entry hq hov
  rw [rankKnowledgeEntries] at hmem
  set scored := ((kb.map (fun e =>
      (e, scoreKnowledgeEntry queryTokens e none))).filter
      (fun pr => 0 < pr.2 ∨ queryTokens.isEmpty)) with hscored
  by_cases hcond : ((sortScoredDesc scored).take topK).isEmpty ∧ ¬ kb.isEmpty
  · rw [if_pos hcond] at hmem
    obtain ⟨hsl, hkbne⟩ := hcond
    rw [List.isEmpty_iff] at hsl
    rcases List.take_eq_nil_iff.mp hsl with htk | hsn
    · rw [htk] at hmem
      simp at hmem
    · have hperm := sortScoredDesc_perm scored
      rw [hsn] at hperm
      have hscored_nil : scored = [] := hperm.symm.eq_nil
      have he'mem : (e', scoreKnowledgeEntry queryTokens e' none) ∈ scored := by
        rw [hscored]
        refine List.mem_filter.mpr ⟨List.mem_map.mpr ⟨e', he', rfl⟩, ?_⟩
        simp only [decide_eq_true_eq]
        exact Or.inl hpos
      rw [hscored_nil] at he'mem
      cases he'mem
  · rw [if_neg hcond] at hmem
    have hmem2 : (entry, s) ∈ scored :=
      (sortScoredDesc_perm scored).subset (List.take_subset _ _ hmem)
    have := List.mem_filter.mp hmem2
    obtain ⟨hinmap, hpred⟩ := this
    simp only [decide_eq_true_eq, hqe, Bool.false_eq_true, or_false] at hpred
    obtain ⟨e, _, hpe⟩ := List.mem_map.mp hinmap
    have hs : s = scoreKnowledgeEntry queryTokens entry none := by
      have h1 : e = entry := congrArg Prod.fst hpe
      have h2 : scoreKnowledgeEntry queryTokens e none = s := congrArg Prod.snd hpe
      rw [← h2, h1]
    rw [hs, hscore0] at hpred
    exact lt_irrefl 0 hpred

/-- Witness for C4: concrete formula, zero-overlap and exclusion cases. -/
theorem claim_C4_lexical_score_formula_witness :
    calculateLexicalScore ["a"] c4WitnessEntry =
      (((["a"].countP (fun t => c4WitnessEntry.tokens.contains t) : Real)
          + 0.1 * ((c4WitnessEntry.tags.getD []).length : Real))
        * (c4WitnessEntry.priority.getD (c4WitnessEntry.weight.getD 1)))
        / (Real.log ((c4WitnessEntry.tokens.length : Real) + 1) + 1) ∧
    calculateLexicalScore ["q"] c4WitnessEntry = 0 ∧
    (∀ s : Real, (c4MissEntry, s) ∉
      rankKnowledgeEntries ["a"] none [c4WitnessEntry, c4MissEntry] 3) := by
  obtain ⟨_, hformula, hzero, hexcl⟩ := claim_C4_lexical_score_formula ["a"]
  obtain ⟨_, _, hzero2, _⟩ := claim_C4_lexical_score_formula ["q"]
  refine ⟨hformula c4WitnessEntry (by decide) (by left; decide), ?_, ?_⟩
  · exact hzero2 c4WitnessEntry (by simp) (by decide)
  · intro s
    refine hexcl [c4WitnessEntry, c4MissEntry] 3 c4MissEntry s
      (by simp) (by decide) ⟨c4WitnessEntry, by simp, ?_⟩
    rw [scoreKnowledgeEntry_no_embedding,
      calculateLexicalScore_formula ["a"] c4WitnessEntry (by decide) (by left; decide)]
    have hcount : (["a"].countP (fun t => c4WitnessEntry.tokens.contains t)) = 1 := by
      decide
    rw [hcount]
    have hlen : ((c4WitnessEntry.tokens.length : Real)) = 2 := by
      norm_num [c4WitnessEntry]
    rw [hlen]
    have htags : (((c4WitnessEntry.tags.getD []).length : Real)) = 1 := by
      norm_num [c4WitnessEntry]
    rw [htags]
    have hpr : (c4WitnessEntry.priority.getD (c4WitnessEntry.weight.getD 1)) = 2 := by
      norm_num [c4WitnessEntry]
    rw [hpr]
    have hlog : 0 < Real.log ((2 : Real) + 1) + 1 := by
      have := Real.log_nonneg (by norm_num : (1 : Real) ≤ 2 + 1)
      linarith
    positivity

/-- Counterexample to C4 as stated: a token-less entry with two tags and
priority 2 scores 0 although the claimed formula gives 0.4; and with a
single-entry knowledge base and a zero-overlap query the no-match fallback
*includes* the zero-overlap entry (score 0) in the ranked result. -/
theorem claim_C4_lexical_score_counterexample :
    calculateLexicalScore [] c4TokenlessEntry = 0 ∧
    (((([] : List String).countP (fun t => c4TokenlessEntry.tokens.contains t) : Real)
        + 0.1 * ((c4TokenlessEntry.tags.getD []).length : Real))
      * (c4TokenlessEntry.priority.getD (c4TokenlessEntry.weight.getD 1)))
      / (Real.log ((c4TokenlessEntry.tokens.length : Real) + 1) + 1) = 0.4 ∧
    (0.4 : Real) ≠ 0 ∧
    (["z"] : List String).countP (fun t => c4ZeroOverlapEntry.tokens.contains t) = 0 ∧
    (c4ZeroOverlapEntry, (0 : Real)) ∈
      rankKnowledgeEntries ["z"] none [c4ZeroOverlapEntry] 3 := by
  refine ⟨calculateLexicalScore_tokenless [] c4TokenlessEntry rfl, ?_, by norm_num,
    by decide, ?_⟩
  · have h1 : (([] : List String).countP
        (fun t => c4TokenlessEntry.tokens.contains t)) = 0 := rfl
    rw [h1]
    have h2 : (((c4TokenlessEntry.tags.getD []).length : Real)) = 2 := by
      norm_num [c4TokenlessEntry]
    rw [h2]
    have h3 : (c4TokenlessEntry.priority.getD (c4TokenlessEntry.weight.getD 1)) = 2 := by
      norm_num [c4TokenlessEntry]
    rw [h3]
    have h4 : ((c4TokenlessEntry.tokens.length : Real)) = 0 := by
      norm_num [c4TokenlessEntry]
    rw [h4]
    rw [(by norm_num : (0 : Real) + 1 = 1), Real.log_one]
    norm_num
  · rw [rankKnowledgeEntries_no_match ["z"] none [c4ZeroOverlapEntry] 3 (by simp) ?_]
    · simp
    · intro e he
      rw [List.mem_singleton] at he
      rw [he, scoreKnowledgeEntry_no_embedding,
        calculateLexicalScore_zero_overlap ["z"] c4ZeroOverlapEntry (by simp) (by decide)]
      exact lt_irrefl 0

theorem insertScoredDesc_nil (x : IndexedKnowledgeEntry × Real) :
    insertScoredDesc x [] = [x] := rfl

theorem insertScoredDesc_lt (x y : IndexedKnowledgeEntry × Real)
    (ys : List (IndexedKnowledgeEntry × Real)) (h : x.2 < y.2) :
    insertScoredDesc x (y :: ys) = y :: insertScoredDesc x ys := by
  rw [insertScoredDesc, if_pos h]

theorem insertScoredDesc_ge (x y : IndexedKnowledgeEntry × Real)
    (ys : List (IndexedKnowledgeEntry × Real)) (h : ¬ x.2 < y.2) :
    insertScoredDesc x (y :: ys) = x :: y :: ys := by
  rw [insertScoredDesc, if_neg h]

/-- With an empty query the positivity filter keeps every entry, so the
ranking is just the stable descending sort truncated to `topK` (the
fallback can only fire with `topK = 0` or an empty base, where both sides
are empty). -/
theorem rankKnowledgeEntries_empty_query (kb : List IndexedKnowledgeEntry)
    (topK : Nat) :
    rankKnowledgeEntries [] none kb topK
      = (sortScoredDesc (kb.map (fun e =>
          (e, calculateLexicalScore [] e)))).take topK := by
  rw [rankKnowledgeEntries]
  have hmap : kb.map (fun e => (e, scoreKnowledgeEntry [] e none))
      = kb.map (fun e => (e, calculateLexicalScore [] e)) := by
    apply List.map_congr_left
    intro e _
    rw [scoreKnowledgeEntry_no_embedding]
  have hfil : ((kb.map (fun e => (e, scoreKnowledgeEntry [] e none))).filter
      (fun pr => 0 < pr.2 ∨ ([] : List String).isEmpty))
      = kb.map (fun e => (e, calculateLexicalScore [] e)) := by
    rw [List.filter_eq_self.mpr ?_, hmap]
    intro pr _
    simp
  rw [hfil]
  by_cases hcond : ((sortScoredDesc (kb.map (fun e =>
      (e, calculateLexicalScore [] e)))).take topK).isEmpty ∧ ¬ kb.isEmpty
  · rw [if_pos hcond]
    obtain ⟨hsl, hkbne⟩ := hcond
    rw [List.isEmpty_iff] at hsl
    rcases List.take_eq_nil_iff.mp hsl with htk | hsn
    · rw [htk]
      simp
    · have hperm := sortScoredDesc_perm (kb.map (fun e =>
        (e, calculateLexicalScore [] e)))
      rw [hsn] at hperm
      have : kb.map (fun e => (e, calculateLexicalScore [] e)) = [] :=
        hperm.symm.eq_nil
      rw [List.map_eq_nil_iff] at this
      rw [List.isEmpty_iff] at hkbne
      exact absurd this hkbne
  · rw [if_neg hcond]

/-- An entry with no tags (and any tokens) scores 0 against the empty
query. -/
theorem calculateLexicalScore_empty_query_tagless (e : IndexedKnowledgeEntry)
    (htags : e.tags = none ∨ e.tags = some []) :
    calculateLexicalScore [] e = 0 := by
  by_cases htok : e.tokens = []
  · exact calculateLexicalScore_tokenless [] e htok
  · rw [calculateLexicalScore_formula [] e htok (Or.inr rfl)]
    have h1 : (([] : List String).countP
        (fun t => e.tokens.contains t)) = 0 := rfl
    have h2 : ((e.tags.getD []).length : Real) = 0 := by
      rcases htags with h | h <;> rw [h] <;> simp
    rw [h1, h2]
    norm_num

/-- **C5** (corrected).  With an empty query token list (and no query
embedding) every entry is retained before truncation: the result has
exactly `min(topK, N)` pairs, each pair carries its entry's empty-query
lexical score `0.1·tagCount·priority / (ln(tokenCount+1)+1)` (0 for
token-less entries), and the list is the *stable descending sort by that
score* truncated to `topK` — not the original order in general.  When no
entry has tags all scores are 0 and the original order is preserved. -/
theorem claim_C5_empty_query_retrieval (kb : List IndexedKnowledgeEntry)
    (topK : Nat) :
    (rankKnowledgeEntries [] none kb topK).length = min topK kb.length ∧
    (∀ pr ∈ rankKnowledgeEntries [] none kb topK,
      pr.1 ∈ kb ∧ pr.2 = calculateLexicalScore [] pr.1) ∧
    ((∀ e ∈ kb, e.tags = none ∨ e.tags = some []) →
      rankKnowledgeEntries [] none kb topK
        = (kb.map (fun e => (e, (0 : Real)))).take topK) := by
  rw [rankKnowledgeEntries_empty_query]
  have hperm := sortScoredDesc_perm (kb.map (fun e =>
    (e, calculateLexicalScore [] e)))
  refine ⟨?_, ?_, ?_⟩
  · rw [List.length_take, hperm.length_eq, List.length_map]
  · intro pr hpr
    have hmem : pr ∈ kb.map (fun e => (e, calculateLexicalScore [] e)) :=
      hperm.subset (List.take_subset _ _ hpr)
    obtain ⟨e, he, hpe⟩ := List.mem_map.mp hmem
    have h1 : e = pr.1 := congrArg Prod.fst hpe
    have h2 : calculateLexicalScore [] e = pr.2 := congrArg Prod.snd hpe
    subst h1
    exact ⟨he, h2.symm⟩
  · intro htags
    have hmap : kb.map (fun e => (e, calculateLexicalScore [] e))
        = kb.map (fun e => (e, (0 : Real))) := by
      apply List.map_congr_left
      intro e he
      rw [calculateLexicalScore_empty_query_tagless e (htags e he)]
    rw [hmap, sortScoredDesc_const 0 _ ?_]
    intro pr hpr
    obtain ⟨e, _, hpe⟩ := List.mem_map.mp hpr
    exact (congrArg Prod.snd hpe).symm ▸ rfl

/-- Witness for C5: two tagless entries, empty query, `topK = 1`. -/
theorem claim_C5_empty_query_retrieval_witness :
    (rankKnowledgeEntries [] none [c5W1, c5W2] 1).length = 1 ∧
    rankKnowledgeEntries [] none [c5W1, c5W2] 1
      = ([c5W1, c5W2].map (fun e => (e, (0 : Real)))).take 1 := by
  obtain ⟨hlen, _, htagless⟩ := claim_C5_empty_query_retrieval [c5W1, c5W2] 1
  refine ⟨by simpa using hlen, htagless ?_⟩
  intro e he
  rcases List.mem_cons.mp he with h | h
  · rw [h]; exact Or.inl rfl
  · rcases List.mem_cons.mp h with h2 | h2
    · rw [h2]; exact Or.inl rfl
    · cases h2

/-- Counterexample to C5 as stated: with an empty query, the tagged entry
scores `0.1/(ln 2 + 1) > 0` (not 0) and is sorted ahead of the earlier
untagged entry, so the original order is not preserved. -/
theorem claim_C5_empty_query_counterexample :
    (rankKnowledgeEntries [] none [c5PlainEntry, c5TaggedEntry] 2).map Prod.fst
      = [c5TaggedEntry, c5PlainEntry] ∧
    c5PlainEntry.title ≠ c5TaggedEntry.title ∧
    ∃ pr ∈ rankKnowledgeEntries [] none [c5PlainEntry, c5TaggedEntry] 2,
      pr.2 ≠ 0 := by
  have hs1 : calculateLexicalScore [] c5PlainEntry = 0 :=
    calculateLexicalScore_empty_query_tagless _ (Or.inl rfl)
  have hs2 : 0 < calculateLexicalScore [] c5TaggedEntry := by
    rw [calculateLexicalScore_formula [] c5TaggedEntry (by decide) (Or.inr rfl)]
    have h1 : (([] : List String).countP
        (fun t => c5TaggedEntry.tokens.contains t)) = 0 := rfl
    rw [h1]
    have h2 : ((c5TaggedEntry.tags.getD []).length : Real) = 1 := by
      norm_num [c5TaggedEntry]
    rw [h2]
    have h3 : (c5TaggedEntry.priority.getD (c5TaggedEntry.weight.getD 1)) = 1 := by
      norm_num [c5TaggedEntry]
    rw [h3]
    have h4 : ((c5TaggedEntry.tokens.length : Real)) = 1 := by
      norm_num [c5TaggedEntry]
    rw [h4]
    have hlog : 0 < Real.log ((1 : Real) + 1) + 1 := by
      have := Real.log_nonneg (by norm_num : (1 : Real) ≤ 1 + 1)
      linarith
    positivity
  have hrank : rankKnowledgeEntries [] none [c5PlainEntry, c5TaggedEntry] 2
      = [(c5TaggedEntry, calculateLexicalScore [] c5TaggedEntry),
         (c5PlainEntry, calculateLexicalScore [] c5PlainEntry)] := by
    rw [rankKnowledgeEntries_empty_query]
    rw [List.map_cons, List.map_cons, List.map_nil]
    rw [sortScoredDesc, sortScoredDesc, sortScoredDesc]
    rw [insertScoredDesc_nil]
    rw [insertScoredDesc_lt _ _ _ (by simpa [hs1] using hs2)]
    rw [insertScoredDesc_nil]
    rfl
  rw [hrank]
  exact ⟨rfl, by decide,
    ⟨(c5TaggedEntry, calculateLexicalScore [] c5TaggedEntry), by simp,
      ne_of_gt hs2⟩⟩

/-- **C6** (corrected).  For two entries with identical *nonempty* token
sets and identical tag counts, a strictly larger effective priority
(`priority ?? weight ?? 1`) gives a strictly larger lexical score —
provided the common score base is positive, i.e. some query token overlaps
the token set, or the query is empty and the entries carry at least one
tag.  Otherwise both entries score exactly 0 and the strict inequality
fails (see the counterexample). -/
theorem claim_C6_priority_monotonicity (queryTokens : List String)
    (e1 e2 : IndexedKnowledgeEntry)
    (htok : e1.tokens = e2.tokens) (hne : e1.tokens ≠ [])
    (htags : (e1.tags.getD []).length = (e2.tags.getD []).length)
    (hbase : 0 < queryTokens.countP (fun t => e1.tokens.contains t)
      ∨ (queryTokens = [] ∧ 0 < (e1.tags.getD []).length))
    (hp : effectivePriority e1 < effectivePriority e2) :
    calculateLexicalScore queryTokens e1 < calculateLexicalScore queryTokens e2 := by
  have hne2 : e2.tokens ≠ [] := htok ▸ hne
  have hov : 0 < queryTokens.countP (fun t => e1.tokens.contains t)
      ∨ queryTokens = [] := by
    rcases hbase with h | ⟨h, _⟩
    · exact Or.inl h
    · exact Or.inr h
  have hov2 : 0 < queryTokens.countP (fun t => e2.tokens.contains t)
      ∨ queryTokens = [] := htok ▸ hov
  rw [calculateLexicalScore_formula queryTokens e1 hne hov,
    calculateLexicalScore_formula queryTokens e2 hne2 hov2,
    htok, htags]
  have hB : 0 < (queryTokens.countP (fun t => e2.tokens.contains t) : Real)
      + 0.1 * ((e2.tags.getD []).length : Real) := by
    rcases hbase with h | ⟨hq, htag⟩
    · rw [htok] at h
      have h1 : (1 : Real) ≤ (queryTokens.countP
          (fun t => e2.tokens.contains t) : Real) := by
        exact_mod_cast h
      have h2 : (0 : Real) ≤ 0.1 * ((e2.tags.getD []).length : Real) := by
        positivity
      linarith
    · subst hq
      have h0 : (([] : List String).countP
          (fun t => e2.tokens.contains t)) = 0 := rfl
      rw [h0]
      rw [htags] at htag
      have h1 : (1 : Real) ≤ ((e2.tags.getD []).length : Real) := by
        exact_mod_cast htag
      push_cast
      linarith
  have hpen : 0 < Real.log ((e2.tokens.length : Real) + 1) + 1 := by
    have h1 : (1 : Real) ≤ (e2.tokens.length : Real) + 1 := by
      have : (0 : Real) ≤ (e2.tokens.length : Real) := by positivity
      linarith
    have := Real.log_nonneg h1
    linarith
  rw [div_lt_div_iff_of_pos_right hpen]
  exact mul_lt_mul_of_pos_left hp hB

/-- Witness for C6: overlapping query `["a"]`, priorities 1 < 2. -/
theorem claim_C6_priority_monotonicity_witness :
    calculateLexicalScore ["a"] c6Lo < calculateLexicalScore ["a"] c6Hi :=
  claim_C6_priority_monotonicity ["a"] c6Lo c6Hi rfl (by decide) rfl
    (Or.inl (by decide))
    (by norm_num [effectivePriority, c6Lo, c6Hi])

/-- Counterexample to C6 as stated: identical token sets and tag counts and
priorities 1 < 2, but a query with zero overlap makes both scores exactly
0, so the strict inequality fails. -/
theorem claim_C6_priority_counterexample :
    c6Lo.tokens = c6Hi.tokens ∧
    (c6Lo.tags.getD []).length = (c6Hi.tags.getD []).length ∧
    effectivePriority c6Lo < effectivePriority c6Hi ∧
    calculateLexicalScore ["b"] c6Lo = 0 ∧
    calculateLexicalScore ["b"] c6Hi = 0 ∧
    ¬ (calculateLexicalScore ["b"] c6Lo < calculateLexicalScore ["b"] c6Hi) := by
  have h1 : calculateLexicalScore ["b"] c6Lo = 0 :=
    calculateLexicalScore_zero_overlap ["b"] c6Lo (by simp) (by decide)
  have h2 : calculateLexicalScore ["b"] c6Hi = 0 :=
    calculateLexicalScore_zero_overlap ["b"] c6Hi (by simp) (by decide)
  refine ⟨rfl, rfl, by norm_num [effectivePriority, c6Lo, c6Hi], h1, h2, ?_⟩
  rw [h1, h2]
  exact lt_irrefl 0

theorem foldl_add_map {α : Type} (f : α → Real) :
    ∀ (l : List α) (init : Real),
      l.foldl (fun acc x => acc + f x) init = init + (l.map f).sum := by
  intro l
  induction l with
  | nil => intro init; simp
  | cons a l ih =>
    intro init
    rw [List.foldl_cons, ih, List.map_cons, List.sum_cons]
    ring

theorem sq_sum_nonneg (l : List Real) : 0 ≤ (l.map (fun x => x * x)).sum := by
  induction l with
  | nil => simp
  | cons a l ih =>
    rw [List.map_cons, List.sum_cons]
    have := mul_self_nonneg a
    linarith

theorem sq_sum_eq_zero (l : List Real) (h : (l.map (fun x => x * x)).sum = 0) :
    ∀ x ∈ l, x = 0 := by
  induction l with
  | nil => intro x hx; cases hx
  | cons a l ih =>
    rw [List.map_cons, List.sum_cons] at h
    have h1 := mul_self_nonneg a
    have h2 := sq_sum_nonneg l
    intro x hx
    rcases List.mem_cons.mp hx with hx | hx
    · rw [hx]
      exact mul_self_eq_zero.mp (by linarith)
    · exact ih (by linarith) x hx

theorem dot_self_eq_sq_sum (a : List Real) :
    (a.zip a).map (fun p => p.1 * p.2) = a.map (fun x => x * x) := by
  induction a with
  | nil => rfl
  | cons x a ih => simp [List.zip_cons_cons, ih]

/-- `cosineSimilarity` on equally long vectors is literally
`dot / (sqrt normA · sqrt normB)` (division by a zero norm yields 0 on both
sides, since Lean's real division by zero is 0). -/
theorem cosineSimilarity_eq (a b : List Real) (hlen : a.length = b.length) :
    cosineSimilarity a b =
      ((a.zip b).map (fun p => p.1 * p.2)).sum
        / (Real.sqrt ((a.map (fun x => x * x)).sum)
          * Real.sqrt ((b.map (fun x => x * x)).sum)) := by
  rw [cosineSimilarity]
  by_cases hae : a.isEmpty
  · rw [if_pos (Or.inl hae)]
    rw [List.isEmpty_iff] at hae
    simp [hae]
  · by_cases hbe : b.isEmpty
    · rw [if_pos (Or.inr (Or.inl hbe))]
      rw [List.isEmpty_iff] at hbe
      simp [hbe]
    · rw [if_neg (by push_neg; exact ⟨hae, hbe, hlen⟩)]
      simp only
      rw [foldl_add_map (fun p : Real × Real => p.1 * p.2) (a.zip b) 0,
        foldl_add_map (fun x : Real => x * x) a 0,
        foldl_add_map (fun x : Real => x * x) b 0,
        zero_add, zero_add, zero_add]
      by_cases h0 : (a.map (fun x => x * x)).sum = 0
          ∨ (b.map (fun x => x * x)).sum = 0
      · rw [if_pos h0]
        rcases h0 with h0 | h0 <;> rw [h0, Real.sqrt_zero]
        · rw [zero_mul, div_zero]
        · rw [mul_zero, div_zero]
      · rw [if_neg h0]

/-- **C7** (confirmed).  `cosineSimilarity(a, b)` equals
`dot(a,b)/(‖a‖·‖b‖)` on equally long vectors; on a non-zero vector paired
with itself it is exactly 1; on orthogonal vectors it is 0; and it returns
0 on mismatched lengths or when either vector has zero norm. -/
theorem claim_C7_cosine_similarity :
    (∀ a b : List Real, a.length = b.length →
      cosineSimilarity a b = ((a.zip b).map (fun p => p.1 * p.2)).sum
        / (Real.sqrt ((a.map (fun x => x * x)).sum)
          * Real.sqrt ((b.map (fun x => x * x)).sum))) ∧
    (∀ a : List Real, a ≠ [] → (∃ x ∈ a, x ≠ 0) → cosineSimilarity a a = 1) ∧
    (∀ a b : List Real, a.length = b.length →
      ((a.zip b).map (fun p => p.1 * p.2)).sum = 0 → cosineSimilarity a b = 0) ∧
    (∀ a b : List Real, a.length ≠ b.length → cosineSimilarity a b = 0) ∧
    (∀ a b : List Real, ((a.map (fun x => x * x)).sum = 0
      ∨ (b.map (fun x => x * x)).sum = 0) → cosineSimilarity a b = 0) := by
  have hmis : ∀ a b : List Real, a.length ≠ b.length → cosineSimilarity a b = 0 := by
    intro a b h
    rw [cosineSimilarity, if_pos (Or.inr (Or.inr h))]
  refine ⟨cosineSimilarity_eq, ?_, ?_, hmis, ?_⟩
  · intro a hne hnz
    rw [cosineSimilarity_eq a a rfl, dot_self_eq_sq_sum]
    have hS : (a.map (fun x => x * x)).sum ≠ 0 := by
      intro h0
      obtain ⟨x, hx, hxne⟩ := hnz
      exact hxne (sq_sum_eq_zero a h0 x hx)
    rw [Real.mul_self_sqrt (sq_sum_nonneg a)]
    exact div_self hS
  · intro a b hlen hdot
    rw [cosineSimilarity_eq a b hlen, hdot, zero_div]
  · intro a b h0
    by_cases hlen : a.length = b.length
    · rw [cosineSimilarity_eq a b hlen]
      rcases h0 with h0 | h0 <;> rw [h0, Real.sqrt_zero]
      · rw [zero_mul, div_zero]
      · rw [mul_zero, div_zero]
    · exact hmis a b hlen

/-- Witness for C7: an identical pair, an orthogonal pair and a
mismatched pair. -/
theorem claim_C7_cosine_similarity_witness :
    cosineSimilarity [1, 0] [1, 0] = 1 ∧
    cosineSimilarity [1, 0] [0, 1] = 0 ∧
    cosineSimilarity [1] [1, 2] = 0 := by
  obtain ⟨_, hself, horth, hmis, _⟩ := claim_C7_cosine_similarity
  refine ⟨hself [1, 0] (by simp) ⟨1, by simp, by norm_num⟩, ?_, hmis [1] [1, 2] (by simp)⟩
  refine horth [1, 0] [0, 1] rfl ?_
  have hz : (([(1 : Real), 0].zip [0, 1]).map (fun p => p.1 * p.2)) = [1 * 0, 0 * 1] := rfl
  rw [hz]
  norm_num

/-- **C8** (confirmed).  When the score filter leaves zero entries (no
entry scores positively and the query is non-empty) over a knowledge base
with `N > 0` entries and `topK = k < N`, the result is exactly the first
`min(topK, N) = k` entries in their original declaration order, each with
score 0. -/
theorem claim_C8_no_match_fallback (queryTokens : List String)
    (queryEmbedding : Option (List Real)) (kb : List IndexedKnowledgeEntry)
    (k : Nat) (_hkb : kb ≠ []) (hq : queryTokens ≠ [])
    (hall : ∀ e ∈ kb, ¬ 0 < scoreKnowledgeEntry queryTokens e queryEmbedding)
    (hk : k < kb.length) :
    rankKnowledgeEntries queryTokens queryEmbedding kb k
      = (kb.take k).map (fun e => (e, (0 : Real))) ∧
    (rankKnowledgeEntries queryTokens queryEmbedding kb k).length = k ∧
    ∀ pr ∈ rankKnowledgeEntries queryTokens queryEmbedding kb k, pr.2 = 0 := by
  have h := rankKnowledgeEntries_no_match queryTokens queryEmbedding kb k hq hall
  have hmin : min k kb.length = k := Nat.min_eq_left (Nat.le_of_lt hk)
  rw [h, hmin, List.map_take]
  refine ⟨rfl, ?_, ?_⟩
  · rw [List.length_take, List.length_map]
    omega
  · intro pr hpr
    have hpr2 := List.take_subset _ _ hpr
    obtain ⟨e, _, hpe⟩ := List.mem_map.mp hpr2
    exact (congrArg Prod.snd hpe).symm

/-- Witness for C8: a two-entry base, a query overlapping nothing and
`topK = 1`. -/
theorem claim_C8_no_match_fallback_witness :
    rankKnowledgeEntries ["z"] none [c8E1, c8E2] 1
      = ([c8E1, c8E2].take 1).map (fun e => (e, (0 : Real))) ∧
    (rankKnowledgeEntries ["z"] none [c8E1, c8E2] 1).length = 1 := by
  have hall : ∀ e ∈ [c8E1, c8E2], ¬ 0 < scoreKnowledgeEntry ["z"] e none := by
    intro e he
    rcases List.mem_cons.mp he with h | h
    · rw [h, scoreKnowledgeEntry_no_embedding,
        calculateLexicalScore_zero_overlap ["z"] c8E1 (by simp) (by decide)]
      exact lt_irrefl 0
    · rcases List.mem_cons.mp h with h2 | h2
      · rw [h2, scoreKnowledgeEntry_no_embedding,
          calculateLexicalScore_zero_overlap ["z"] c8E2 (by simp) (by decide)]
        exact lt_irrefl 0
      · cases h2
  obtain ⟨heq, hlen, _⟩ := claim_C8_no_match_fallback ["z"] none [c8E1, c8E2] 1
    (by simp) (by simp) hall (by simp)
  exact ⟨heq, hlen⟩

/-! ### Error characterization of the executor -/

theorem runRetrieverNode_source_none (svc : ExternalServices)
    (kbIdx : String → Option (List IndexedKnowledgeEntry))
    (node : PipelineNode) (st : PipelineState)
    (h : node.config.source = none) :
    runRetrieverNode svc kbIdx node st = .error (.badRequest
      ("Retriever node \"" ++ node.id ++ "\" is missing a source configuration.")) := by
  rw [runRetrieverNode, h]

theorem runRetrieverNode_source_blank (svc : ExternalServices)
    (kbIdx : String → Option (List IndexedKnowledgeEntry))
    (node : PipelineNode) (st : PipelineState)
    (h : node.config.source = some "") :
    runRetrieverNode svc kbIdx node st = .error (.badRequest
      ("Retriever node \"" ++ node.id ++ "\" is missing a source configuration.")) := by
  rw [runRetrieverNode, h]
  dsimp only
  rw [if_pos rfl]

theorem runRetrieverNode_source_missing (svc : ExternalServices)
    (kbIdx : String → Option (List IndexedKnowledgeEntry))
    (node : PipelineNode) (st : PipelineState) (source : String)
    (hs : node.config.source = some source) (hne0 : source ≠ "")
    (hk : kbIdx source = none) :
    runRetrieverNode svc kbIdx node st = .error (.notFound
      ("Knowledge source \"" ++ source ++ "\" is not configured or empty.")) := by
  rw [runRetrieverNode, hs]
  dsimp only
  rw [if_neg hne0, hk]

theorem runRetrieverNode_source_empty (svc : ExternalServices)
    (kbIdx : String → Option (List IndexedKnowledgeEntry))
    (node : PipelineNode) (st : PipelineState) (source : String)
    (hs : node.config.source = some source) (hne0 : source ≠ "")
    (hk : kbIdx source = some []) :
    runRetrieverNode svc kbIdx node st = .error (.notFound
      ("Knowledge source \"" ++ source ++ "\" is not configured or empty.")) := by
  rw [runRetrieverNode, hs]
  dsimp only
  rw [if_neg hne0, hk]
  rfl

theorem runRetrieverNode_ok (svc : ExternalServices)
    (kbIdx : String → Option (List IndexedKnowledgeEntry))
    (node : PipelineNode) (st : PipelineState) (source : String)
    (kb : List IndexedKnowledgeEntry)
    (hs : node.config.source = some source) (hne0 : source ≠ "")
    (hk : kbIdx source = some kb) (hne : kb ≠ []) :
    ∃ out, runRetrieverNode svc kbIdx node st = .ok out := by
  rw [runRetrieverNode, hs]
  dsimp only
  rw [if_neg hne0, hk]
  dsimp only
  rw [if_neg (by rw [List.isEmpty_iff]; exact hne)]
  split
  · exact ⟨_, rfl⟩
  · exact ⟨_, rfl⟩

theorem runToolNode_missing (svc : ExternalServices) (node : PipelineNode)
    (st : PipelineState) (h : node.config.toolName = none) :
    runToolNode svc node st = .error (.badRequest
      ("Tool node \"" ++ node.id ++ "\" is missing \x27toolName\x27 config.")) := by
  rw [runToolNode, h]

theorem runToolNode_blank (svc : ExternalServices) (node : PipelineNode)
    (st : PipelineState) (h : node.config.toolName = some "") :
    runToolNode svc node st = .error (.badRequest
      ("Tool node \"" ++ node.id ++ "\" is missing \x27toolName\x27 config.")) := by
  rw [runToolNode, h]
  dsimp only
  rw [if_pos rfl]

theorem runToolNode_unknown (svc : ExternalServices) (node : PipelineNode)
    (st : PipelineState) (t : String) (h : node.config.toolName = some t)
    (h0 : t ≠ "") (h1 : t ≠ "mock_product_api") (h2 : t ≠ "mock_location_api") :
    runToolNode svc node st = .error (.badRequest ("Unknown tool name \"" ++ t ++
      "\" requested by node \"" ++ node.id ++ "\".")) := by
  rw [runToolNode, h]
  dsimp only
  rw [if_neg h0, if_neg h1, if_neg h2]

theorem runToolNode_ok (svc : ExternalServices) (node : PipelineNode)
    (st : PipelineState) (t : String) (h : node.config.toolName = some t)
    (hr : t = "mock_product_api" ∨ t = "mock_location_api") :
    ∃ out, runToolNode svc node st = .ok out := by
  rw [runToolNode, h]
  dsimp only
  rcases hr with rfl | rfl
  · exact ⟨_, rfl⟩
  · exact ⟨_, rfl⟩

theorem execNode_error_of_config (svc : ExternalServices) (fmt : Real → String)
    (kbIdx : String → Option (List IndexedKnowledgeEntry))
    (node : PipelineNode) (st : PipelineState) (e : PipelineError)
    (h : nodeConfigError kbIdx node = some e) :
    execNode svc fmt kbIdx node st = .error e := by
  rw [nodeConfigError] at h
  by_cases h1 : node.type = "llm"
  · rw [if_pos h1] at h
    cases h
  · rw [if_neg h1] at h
    by_cases h2 : node.type = "retriever"
    · rw [if_pos h2] at h
      rw [execNode, if_neg h1, if_pos h2]
      cases hsrc : node.config.source with
      | none =>
        rw [hsrc] at h
        dsimp only at h
        have he := Option.some.inj h
        rw [runRetrieverNode_source_none svc kbIdx node st hsrc, he]
      | some source =>
        rw [hsrc] at h
        dsimp only at h
        by_cases hse : source = ""
        · rw [if_pos hse] at h
          have he := Option.some.inj h
          rw [runRetrieverNode_source_blank svc kbIdx node st (hse ▸ hsrc), he]
        · rw [if_neg hse] at h
          cases hk : kbIdx source with
          | none =>
            rw [hk] at h
            dsimp only at h
            have he := Option.some.inj h
            rw [runRetrieverNode_source_missing svc kbIdx node st source hsrc hse
              hk, he]
          | some kb =>
            rw [hk] at h
            dsimp only at h
            by_cases hkb : kb.isEmpty
            · rw [if_pos hkb] at h
              have he := Option.some.inj h
              have hkb' : kb = [] := List.isEmpty_iff.mp hkb
              rw [runRetrieverNode_source_empty svc kbIdx node st source hsrc hse
                (hkb' ▸ hk), he]
            · rw [if_neg hkb] at h
              cases h
    · rw [if_neg h2] at h
      by_cases h3 : node.type = "tool"
      · rw [if_pos h3] at h
        rw [execNode, if_neg h1, if_neg h2, if_pos h3]
        cases ht : node.config.toolName with
        | none =>
          rw [ht] at h
          dsimp only at h
          have he := Option.some.inj h
          rw [runToolNode_missing svc node st ht, he]
        | some t =>
          rw [ht] at h
          dsimp only at h
          by_cases h0 : t = ""
          · rw [if_pos h0] at h
            have he := Option.some.inj h
            rw [runToolNode_blank svc node st (h0 ▸ ht), he]
          · rw [if_neg h0] at h
            by_cases hreg : t = "mock_product_api" ∨ t = "mock_location_api"
            · rw [if_pos hreg] at h
              cases h
            · rw [if_neg hreg] at h
              have he := Option.some.inj h
              push_neg at hreg
              rw [runToolNode_unknown svc node st t ht h0 hreg.1 hreg.2, he]
      · rw [if_neg h3] at h
        have he := Option.some.inj h
        rw [execNode, if_neg h1, if_neg h2, if_neg h3, he]

theorem execNode_ok_of_config (svc : ExternalServices) (fmt : Real → String)
    (kbIdx : String → Option (List IndexedKnowledgeEntry))
    (node : PipelineNode) (st : PipelineState)
    (h : nodeConfigError kbIdx node = none) :
    ∃ pr, execNode svc fmt kbIdx node st = .ok pr := by
  rw [nodeConfigError] at h
  by_cases h1 : node.type = "llm"
  · rw [execNode, if_pos h1]
    exact ⟨_, rfl⟩
  · rw [if_neg h1] at h
    by_cases h2 : node.type = "retriever"
    · rw [if_pos h2] at h
      rw [execNode, if_neg h1, if_pos h2]
      cases hsrc : node.config.source with
      | none => rw [hsrc] at h; dsimp only at h; cases h
      | some source =>
        rw [hsrc] at h
        dsimp only at h
        by_cases hse : source = ""
        · rw [if_pos hse] at h; cases h
        · rw [if_neg hse] at h
          cases hk : kbIdx source with
          | none => rw [hk] at h; dsimp only at h; cases h
          | some kb =>
            rw [hk] at h
            dsimp only at h
            by_cases hkb : kb.isEmpty
            · rw [if_pos hkb] at h; cases h
            · obtain ⟨out, hout⟩ := runRetrieverNode_ok svc kbIdx node st source kb
                hsrc hse hk (fun hn => hkb (by rw [hn]; rfl))
              rw [hout]
              exact ⟨_, rfl⟩
    · rw [if_neg h2] at h
      by_cases h3 : node.type = "tool"
      · rw [if_pos h3] at h
        rw [execNode, if_neg h1, if_neg h2, if_pos h3]
        cases ht : node.config.toolName with
        | none => rw [ht] at h; dsimp only at h; cases h
        | some t =>
          rw [ht] at h
          dsimp only at h
          by_cases h0 : t = ""
          · rw [if_pos h0] at h; cases h
          · rw [if_neg h0] at h
            by_cases hreg : t = "mock_product_api" ∨ t = "mock_location_api"
            · obtain ⟨out, hout⟩ := runToolNode_ok svc node st t ht hreg
              rw [hout]
              dsimp only
              split
              · exact ⟨_, rfl⟩
              · exact ⟨_, rfl⟩
            · rw [if_neg hreg] at h; cases h
      · rw [if_neg h3] at h
        cases h

theorem resolvedNodes_cons (nodes : List PipelineNode) (id : String)
    (rest : List String) :
    resolvedNodes nodes (id :: rest) =
      (match nodes.find? (fun n => n.id == id) with
       | none => resolvedNodes nodes rest
       | some node => node :: resolvedNodes nodes rest) := by
  rw [resolvedNodes, List.filterMap_cons, resolvedNodes]
  cases nodes.find? (fun n => n.id == id) <;> rfl

theorem execLoop_spec (svc : ExternalServices) (fmt : Real → String)
    (kbIdx : String → Option (List IndexedKnowledgeEntry))
    (nodes : List PipelineNode) (order : List String) :
    ∀ (st : PipelineState) (steps : List PipelineStepRecord),
      (∀ e, execLoop svc fmt kbIdx nodes order st steps = .error e ↔
        firstConfigError kbIdx nodes order = some e) ∧
      (firstConfigError kbIdx nodes order = none →
        ∃ st2 steps2,
          execLoop svc fmt kbIdx nodes order st steps = .ok (st2, steps2) ∧
          steps2.length = steps.length + (resolvedNodes nodes order).length) := by
  induction order with
  | nil =>
    intro st steps
    refine ⟨fun e => ⟨fun hrun => ?_, fun hfce => ?_⟩, fun _ => ⟨st, steps, rfl, ?_⟩⟩
    · rw [execLoop] at hrun
      cases hrun
    · rw [firstConfigError, resolvedNodes] at hfce
      cases hfce
    · rw [resolvedNodes]
      rfl
  | cons id rest ih =>
    intro st steps
    cases hfind : nodes.find? (fun n => n.id == id) with
    | none =>
      have hstep : execLoop svc fmt kbIdx nodes (id :: rest) st steps
          = execLoop svc fmt kbIdx nodes rest st steps := by
        rw [execLoop, hfind]
      have hres : resolvedNodes nodes (id :: rest) = resolvedNodes nodes rest := by
        rw [resolvedNodes_cons, hfind]
      have hfce : firstConfigError kbIdx nodes (id :: rest)
          = firstConfigError kbIdx nodes rest := by
        rw [firstConfigError, firstConfigError, hres]
      obtain ⟨ihiff, ihok⟩ := ih st steps
      refine ⟨fun e => ?_, fun hnone => ?_⟩
      · rw [hstep, hfce]
        exact ihiff e
      · rw [hfce] at hnone
        obtain ⟨st2, steps2, hrun, hlen⟩ := ihok hnone
        exact ⟨st2, steps2, by rw [hstep]; exact hrun, by rw [hres]; exact hlen⟩
    | some node =>
      have hres : resolvedNodes nodes (id :: rest)
          = node :: resolvedNodes nodes rest := by
        rw [resolvedNodes_cons, hfind]
      have hfce : firstConfigError kbIdx nodes (id :: rest)
          = (match nodeConfigError kbIdx node with
             | some e0 => some e0
             | none => firstConfigError kbIdx nodes rest) := by
        rw [firstConfigError, hres, List.findSome?_cons, firstConfigError]
        cases nodeConfigError kbIdx node <;> rfl
      cases hcfg : nodeConfigError kbIdx node with
      | some e0 =>
        have hex := execNode_error_of_config svc fmt kbIdx node st e0 hcfg
        have hstep : execLoop svc fmt kbIdx nodes (id :: rest) st steps
            = .error e0 := by
          rw [execLoop, hfind]
          dsimp only
          rw [hex]
        have hfce2 : firstConfigError kbIdx nodes (id :: rest) = some e0 := by
          rw [hfce, hcfg]
        refine ⟨fun e => ⟨fun hrun => ?_, fun hsome => ?_⟩, fun hnone => ?_⟩
        · rw [hstep] at hrun
          rw [hfce2, Except.error.inj hrun]
        · rw [hfce2] at hsome
          rw [hstep, Option.some.inj hsome]
        · rw [hfce2] at hnone
          cases hnone
      | none =>
        obtain ⟨pr, hex⟩ := execNode_ok_of_config svc fmt kbIdx node st hcfg
        obtain ⟨output, st1⟩ := pr
        have hstep : execLoop svc fmt kbIdx nodes (id :: rest) st steps
            = execLoop svc fmt kbIdx nodes rest (afterNode fmt node output st1)
                (steps ++ [makeStepRecord node output]) := by
          rw [execLoop, hfind]
          dsimp only
          rw [hex]
        have hfce2 : firstConfigError kbIdx nodes (id :: rest)
            = firstConfigError kbIdx nodes rest := by
          rw [hfce, hcfg]
        obtain ⟨ihiff, ihok⟩ := ih (afterNode fmt node output st1)
          (steps ++ [makeStepRecord node output])
        refine ⟨fun e => ?_, fun hnone => ?_⟩
        · rw [hstep, hfce2]
          exact ihiff e
        · rw [hfce2] at hnone
          obtain ⟨st2, steps2, hrun, hlen⟩ := ihok hnone
          refine ⟨st2, steps2, by rw [hstep]; exact hrun, ?_⟩
          rw [hlen, hres]
          simp only [List.length_append, List.length_cons, List.length_nil]
          omega

theorem execNode_input (svc : ExternalServices) (fmt : Real → String)
    (kbIdx : String → Option (List IndexedKnowledgeEntry))
    (node : PipelineNode) (st : PipelineState) (out : JsValue)
    (st2 : PipelineState)
    (h : execNode svc fmt kbIdx node st = .ok (out, st2)) :
    st2.input = st.input := by
  rw [execNode] at h
  by_cases h1 : node.type = "llm"
  · rw [if_pos h1] at h
    dsimp only at h
    obtain ⟨_, hs⟩ := Prod.mk.inj (Except.ok.inj h)
    rw [← hs]
    split
    · split
      · rfl
      · rfl
    · split
      · rfl
      · rfl
  · rw [if_neg h1] at h
    by_cases h2 : node.type = "retriever"
    · rw [if_pos h2] at h
      cases hr : runRetrieverNode svc kbIdx node st with
      | error e =>
        rw [hr] at h
        dsimp only at h
        cases h
      | ok o =>
        rw [hr] at h
        dsimp only at h
        obtain ⟨_, hs⟩ := Prod.mk.inj (Except.ok.inj h)
        rw [← hs]
        split
        · split
          · rfl
          · rfl
        · rfl
    · rw [if_neg h2] at h
      by_cases h3 : node.type = "tool"
      · rw [if_pos h3] at h
        cases hr : runToolNode svc node st with
        | error e =>
          rw [hr] at h
          dsimp only at h
          cases h
        | ok o =>
          rw [hr] at h
          dsimp only at h
          split at h
          · obtain ⟨_, hs⟩ := Prod.mk.inj (Except.ok.inj h)
            rw [← hs]
          · obtain ⟨_, hs⟩ := Prod.mk.inj (Except.ok.inj h)
            rw [← hs]
      · rw [if_neg h3] at h
        cases h

theorem execLoop_input (svc : ExternalServices) (fmt : Real → String)
    (kbIdx : String → Option (List IndexedKnowledgeEntry))
    (nodes : List PipelineNode) (order : List String) :
    ∀ (st : PipelineState) (steps : List PipelineStepRecord)
      (st2 : PipelineState) (steps2 : List PipelineStepRecord),
      execLoop svc fmt kbIdx nodes order st steps = .ok (st2, steps2) →
      st2.input = st.input := by
  induction order with
  | nil =>
    intro st steps st2 steps2 h
    rw [execLoop] at h
    obtain ⟨hs, _⟩ := Prod.mk.inj (Except.ok.inj h)
    rw [← hs]
  | cons id rest ih =>
    intro st steps st2 steps2 h
    rw [execLoop] at h
    cases hfind : nodes.find? (fun n => n.id == id) with
    | none =>
      rw [hfind] at h
      dsimp only at h
      exact ih st steps st2 steps2 h
    | some node =>
      rw [hfind] at h
      dsimp only at h
      cases hex : execNode svc fmt kbIdx node st with
      | error e =>
        rw [hex] at h
        cases h
      | ok pr =>
        obtain ⟨o, st1⟩ := pr
        rw [hex] at h
        dsimp only at h
        have hrest := ih (afterNode fmt node o st1)
          (steps ++ [makeStepRecord node o]) st2 steps2 h
        have hafter : (afterNode fmt node o st1).input = st1.input := rfl
        rw [hrest, hafter, execNode_input svc fmt kbIdx node st o st1 hex]

/-- C9: a pipeline run aborts with a descriptive error exactly at the first
configuration error along the execution order (unsupported node type,
retriever without a source — absent or the falsy empty string, unknown or
empty knowledge source, tool node with a missing — absent or empty-string —
or unregistered tool name), the error carrying the exact message naming
the offending node, source or tool; an aborted run returns no partial step
trace, and a run with no configuration error returns a step record for
every resolved node of the order. -/
theorem claim_C9_configuration_errors (svc : ExternalServices)
    (fmt : Real → String)
    (kbIdx : String → Option (List IndexedKnowledgeEntry))
    (p : PipelineDefinition) (input : String) (node : PipelineNode) :
    (∀ e, executePipeline svc fmt kbIdx p input = .error e ↔
       firstConfigError kbIdx p.nodes (buildExecutionOrder p) = some e) ∧
    (firstConfigError kbIdx p.nodes (buildExecutionOrder p) = none →
       ∃ res, executePipeline svc fmt kbIdx p input = .ok res ∧
         res.steps.length
           = (resolvedNodes p.nodes (buildExecutionOrder p)).length) ∧
    (node.type ≠ "llm" → node.type ≠ "retriever" → node.type ≠ "tool" →
       nodeConfigError kbIdx node = some (.badRequest
         ("Unsupported pipeline node type \"" ++ node.type ++ "\"."))) ∧
    (node.type = "retriever" →
       node.config.source = none ∨ node.config.source = some "" →
       nodeConfigError kbIdx node = some (.badRequest
         ("Retriever node \"" ++ node.id
           ++ "\" is missing a source configuration."))) ∧
    (∀ source, node.type = "retriever" → node.config.source = some source →
       source ≠ "" → kbIdx source = none ∨ kbIdx source = some [] →
       nodeConfigError kbIdx node = some (.notFound
         ("Knowledge source \"" ++ source ++ "\" is not configured or empty."))) ∧
    (node.type = "tool" →
       node.config.toolName = none ∨ node.config.toolName = some "" →
       nodeConfigError kbIdx node = some (.badRequest
         ("Tool node \"" ++ node.id ++ "\" is missing \x27toolName\x27 config."))) ∧
    (∀ t, node.type = "tool" → node.config.toolName = some t → t ≠ "" →
       t ≠ "mock_product_api" → t ≠ "mock_location_api" →
       nodeConfigError kbIdx node = some (.badRequest
         ("Unknown tool name \"" ++ t ++ "\" requested by node \""
           ++ node.id ++ "\"."))) := by
  obtain ⟨hiff, hok⟩ := execLoop_spec svc fmt kbIdx p.nodes
    (buildExecutionOrder p) (initialState input) []
  refine ⟨fun e => ?_, fun hnone => ?_, fun h1 h2 h3 => ?_, fun h2 hsrc => ?_,
    fun source h2 hsrc hne0 hkor => ?_, fun h3 ht => ?_,
    fun t h3 ht h0 hn1 hn2 => ?_⟩
  · cases hrun : execLoop svc fmt kbIdx p.nodes (buildExecutionOrder p)
        (initialState input) [] with
    | error e2 =>
      rw [executePipeline, hrun]
      dsimp only
      constructor
      · intro hh
        rw [← Except.error.inj hh]
        exact (hiff e2).mp hrun
      · intro hh
        have hh2 := (hiff e).mpr hh
        rw [hrun] at hh2
        rw [Except.error.inj hh2]
    | ok pr =>
      obtain ⟨stf, stepsf⟩ := pr
      rw [executePipeline, hrun]
      dsimp only
      constructor
      · intro hh
        cases hh
      · intro hh
        have hh2 := (hiff e).mpr hh
        rw [hrun] at hh2
        cases hh2
  · obtain ⟨st2, steps2, hrun, hlen⟩ := hok hnone
    refine ⟨_, by rw [executePipeline, hrun], ?_⟩
    simpa using hlen
  · rw [nodeConfigError, if_neg h1, if_neg h2, if_neg h3]
  · rw [nodeConfigError, if_neg (by rw [h2]; decide), if_pos h2]
    rcases hsrc with hsrc | hsrc
    · rw [hsrc]
    · rw [hsrc]
      dsimp only
      rw [if_pos rfl]
  · rw [nodeConfigError, if_neg (by rw [h2]; decide), if_pos h2, hsrc]
    dsimp only
    rw [if_neg hne0]
    rcases hkor with hk | hk
    · rw [hk]
    · rw [hk]
      rfl
  · rw [nodeConfigError, if_neg (by rw [h3]; decide),
      if_neg (by rw [h3]; decide), if_pos h3]
    rcases ht with ht | ht
    · rw [ht]
    · rw [ht]
      dsimp only
      rw [if_pos rfl]
  · rw [nodeConfigError, if_neg (by rw [h3]; decide),
      if_neg (by rw [h3]; decide), if_pos h3, ht]
    dsimp only
    rw [if_neg h0, if_neg (not_or.mpr ⟨hn1, hn2⟩)]

theorem claim_C9_configuration_errors_witness :
    executePipeline c9Svc c9Fmt c9EmptyIdx c9BadPipeline "hi" = .error (.badRequest
      ("Retriever node \"r\" is missing a source configuration.")) :=
  ((claim_C9_configuration_errors c9Svc c9Fmt c9EmptyIdx c9BadPipeline "hi"
    c9Node).1 _).mpr (by rfl)

/-- C10: `state.input` is never mutated after initialization — node
execution preserves it, the post-node bookkeeping (`afterNode`) preserves
it, the whole execution loop preserves it, and the final state of a run
started on `userInput` still has `input = userInput`. -/
theorem claim_C10_input_immutable (svc : ExternalServices)
    (fmt : Real → String)
    (kbIdx : String → Option (List IndexedKnowledgeEntry)) :
    (∀ node st out st2, execNode svc fmt kbIdx node st = .ok (out, st2) →
       st2.input = st.input) ∧
    (∀ node out st, (afterNode fmt node out st).input = st.input) ∧
    (∀ nodes order st steps st2 steps2,
       execLoop svc fmt kbIdx nodes order st steps = .ok (st2, steps2) →
       st2.input = st.input) ∧
    (∀ p userInput st2 steps2,
       execLoop svc fmt kbIdx p.nodes (buildExecutionOrder p)
         (initialState userInput) [] = .ok (st2, steps2) →
       st2.input = userInput) := by
  refine ⟨fun node st out st2 h => execNode_input svc fmt kbIdx node st out st2 h,
    fun node out st => rfl,
    fun nodes order st steps st2 steps2 h =>
      execLoop_input svc fmt kbIdx nodes order st steps st2 steps2 h,
    fun p userInput st2 steps2 h => ?_⟩
  exact execLoop_input svc fmt kbIdx p.nodes (buildExecutionOrder p)
    (initialState userInput) [] st2 steps2 h

theorem claim_C10_input_immutable_witness :
    ∃ st2 steps2,
      execLoop c9Svc c9Fmt c9EmptyIdx c10Pipeline.nodes
        (buildExecutionOrder c10Pipeline) (initialState "hi") []
        = .ok (st2, steps2) ∧ st2.input = "hi" := by
  obtain ⟨⟨st2, steps2⟩, hpr⟩ : ∃ pr, execLoop c9Svc c9Fmt c9EmptyIdx
      c10Pipeline.nodes (buildExecutionOrder c10Pipeline)
      (initialState "hi") [] = .ok pr := ⟨_, rfl⟩
  exact ⟨st2, steps2, hpr,
    (claim_C10_input_immutable c9Svc c9Fmt c9EmptyIdx).2.2.2 c10Pipeline "hi"
      st2 steps2 hpr⟩

end Workflow
